import Mathlib

/-!
Verification of the streaming relay engine and sliding-window rate limiter
of the NodeServer repository (src/api/gemini.js, src/api/gemini/stream.js,
src/api/gemini/index.js, src/api/gemini/silent.js).

Text is modelled as `List Char`.  JavaScript strings are sequences of
characters for the inputs considered here; all the string operations used
by the source (concatenation, indexOf of "\n"/"\n\n", slice, split on the
regular expression matching an optional carriage return followed by a
newline, trim, toLowerCase on ASCII prefixes) are translated below.
-/

/-- JavaScript `String.prototype.trim` whitespace test, restricted to the
ASCII whitespace characters (space, tab, newline, carriage return,
vertical tab, form feed) that can occur in the streams modelled here. -/
def isJsWs (c : Char) : Bool :=
  c = ' ' || c = '\t' || c = '\n' || c = '\r' ||
  c = Char.ofNat 11 || c = Char.ofNat 12

/-- Remove leading whitespace. -/
def trimLeft (s : List Char) : List Char := s.dropWhile isJsWs

/-- Remove trailing whitespace. -/
def trimRight (s : List Char) : List Char := (s.reverse.dropWhile isJsWs).reverse

/-- JavaScript `line.trim()`. -/
def jsTrim (s : List Char) : List Char := trimLeft (trimRight s)

/-- ASCII lower-casing of one character, as `String.prototype.toLowerCase`
acts on the ASCII range (the only range relevant to the `event:` / `data:`
prefix tests of the source). -/
def lowerChar (c : Char) : Char :=
  if 'A' ≤ c ∧ c ≤ 'Z' then Char.ofNat (c.toNat + 32) else c

/-- ASCII lower-casing of a string. -/
def lowerStr (s : List Char) : List Char := s.map lowerChar

/-- `s.startsWith(pre)`. -/
def leadsWith (pre s : List Char) : Bool := s.take pre.length == pre

/-- Prepend a character to the first piece of a split result. -/
def consHead (c : Char) : List (List Char) → List (List Char)
  | [] => [[c]]
  | s :: ss => (c :: s) :: ss

/-- Split a string at every newline character.  Always returns at least one
(possibly empty) piece; a string with `n` newlines yields `n + 1` pieces. -/
def splitOnNl : List Char → List (List Char)
  | [] => [[]]
  | c :: rest => if c = '\n' then [] :: splitOnNl rest else consHead c (splitOnNl rest)

/-- Remove one trailing carriage return, if present. -/
def dropTrailingCR (s : List Char) : List Char :=
  if s.getLastD ' ' = '\r' then s.dropLast else s

/-- Apply `dropTrailingCR` to every piece except the last. -/
def stripInit : List (List Char) → List (List Char)
  | [] => []
  | [s] => [s]
  | s :: rest => dropTrailingCR s :: stripInit rest

/-- JavaScript `frame.split(/\r?\n/)`: the separator is a newline together
with the carriage return immediately preceding it (if any), so the result
is the newline-split of the frame with one trailing carriage return removed
from every piece that was followed by a separator, i.e. every piece but the
last. -/
def splitFrameLines (f : List Char) : List (List Char) := stripInit (splitOnNl f)

/-- `buffer.indexOf('\n')` followed by the slices the source takes: the text
before the first newline and the text after it, or `none` when there is no
newline. -/
def breakOnNl : List Char → Option (List Char × List Char)
  | [] => none
  | c :: rest =>
    if c = '\n' then some ([], rest)
    else (breakOnNl rest).map (fun p => (c :: p.1, p.2))

/-- `buffer.indexOf('\n\n')` followed by the slices the source takes: the
text before the first double newline and the text after it, or `none` when
there is no double newline. -/
def breakOnNl2 : List Char → Option (List Char × List Char)
  | '\n' :: '\n' :: rest => some ([], rest)
  | c :: rest => (breakOnNl2 rest).map (fun p => (c :: p.1, p.2))
  | [] => none

/-! ## JSON values and `JSON.parse`

`JSON.parse` of the source is modelled by a recursive-descent parser over
the JSON grammar (ECMA-404).  Numbers are kept as their raw token (the
relay never does arithmetic on them; only their zero-ness matters, for
JavaScript truthiness). -/

/-- A parsed JSON value. -/
inductive Json where
  | jnull : Json
  | jbool (b : Bool) : Json
  | jnum (raw : List Char) : Json
  | jstr (s : List Char) : Json
  | jarr (elems : List Json) : Json
  | jobj (fields : List (List Char × Json)) : Json

/-- JSON whitespace (ECMA-404). -/
def isJsonWs (c : Char) : Bool := c = ' ' || c = '\t' || c = '\n' || c = '\r'

/-- Skip JSON whitespace. -/
def skipWs (s : List Char) : List Char := s.dropWhile isJsonWs

/-- Hex digit value. -/
def hexVal (c : Char) : Option Nat :=
  if '0' ≤ c ∧ c ≤ '9' then some (c.toNat - '0'.toNat)
  else if 'a' ≤ c ∧ c ≤ 'f' then some (c.toNat - 'a'.toNat + 10)
  else if 'A' ≤ c ∧ c ≤ 'F' then some (c.toNat - 'A'.toNat + 10)
  else none

/-- Parse the body of a JSON string literal after the opening quote,
returning the decoded characters and the rest of the input. -/
def parseStringBody : Nat → List Char → Option (List Char × List Char)
  | 0, _ => none
  | _, [] => none
  | fuel + 1, c :: rest =>
    if c = '"' then some ([], rest)
    else if c = '\\' then
      match rest with
      | [] => none
      | e :: rest2 =>
        let dec : Option (Char × List Char) :=
          if e = '"' then some ('"', rest2)
          else if e = '\\' then some ('\\', rest2)
          else if e = '/' then some ('/', rest2)
          else if e = 'b' then some (Char.ofNat 8, rest2)
          else if e = 'f' then some (Char.ofNat 12, rest2)
          else if e = 'n' then some ('\n', rest2)
          else if e = 'r' then some ('\r', rest2)
          else if e = 't' then some ('\t', rest2)
          else if e = 'u' then
            match rest2 with
            | h1 :: h2 :: h3 :: h4 :: rest3 =>
              match hexVal h1, hexVal h2, hexVal h3, hexVal h4 with
              | some v1, some v2, some v3, some v4 =>
                some (Char.ofNat (((v1 * 16 + v2) * 16 + v3) * 16 + v4), rest3)
              | _, _, _, _ => none
            | _ => none
          else none
        match dec with
        | some (ch, rest3) =>
          (parseStringBody fuel rest3).map (fun p => (ch :: p.1, p.2))
        | none => none
    else if c.toNat < 32 then none
    else (parseStringBody fuel rest).map (fun p => (c :: p.1, p.2))

/-- Parse the digits of a JSON number starting at `s`, given that a digit
run is required; returns the digits and the rest. -/
def takeDigits (s : List Char) : List Char × List Char :=
  (s.takeWhile (fun c => c.isDigit), s.dropWhile (fun c => c.isDigit))

/-- Parse a JSON number token (sign, integer part, optional fraction,
optional exponent) and return it raw together with the rest of the input. -/
def parseNumber (s : List Char) : Option (List Char × List Char) :=
  let (sign, s1) := match s with
    | '-' :: r => (['-'], r)
    | _ => (([] : List Char), s)
  match s1 with
  | [] => none
  | d :: _ =>
    if ¬ d.isDigit then none
    else
      let (intPart, s2) := takeDigits s1
      if intPart.length > 1 ∧ intPart.headD '0' = '0' then none
      else
        let (fracPart, s3) :=
          match s2 with
          | '.' :: r =>
            let (ds, r2) := takeDigits r
            if ds = [] then ((none : Option (List Char)), s2) else (some ('.' :: ds), r2)
          | _ => (none, s2)
        match fracPart with
        | none =>
          match s2 with
          | '.' :: _ => none
          | _ =>
            match parseExpPart s2 with
            | none => none
            | some (expPart, s4) => some (sign ++ intPart ++ expPart, s4)
        | some fp =>
          match parseExpPart s3 with
          | none => none
          | some (expPart, s4) => some (sign ++ intPart ++ fp ++ expPart, s4)
where
  /-- Parse an optional exponent part; `none` means a malformed exponent. -/
  parseExpPart (s : List Char) : Option (List Char × List Char) :=
    match s with
    | 'e' :: r | 'E' :: r =>
      let (esign, r1) := match r with
        | '+' :: r2 => (['e', '+'], r2)
        | '-' :: r2 => (['e', '-'], r2)
        | _ => (['e'], r)
      let (ds, r2) := takeDigits r1
      if ds = [] then none else some (esign ++ ds, r2)
    | _ => some ([], s)

mutual

/-- Parse one JSON value (after skipping leading whitespace). -/
def parseValue : Nat → List Char → Option (Json × List Char)
  | 0, _ => none
  | fuel + 1, s =>
    match skipWs s with
    | 'n' :: 'u' :: 'l' :: 'l' :: r => some (.jnull, r)
    | 't' :: 'r' :: 'u' :: 'e' :: r => some (.jbool true, r)
    | 'f' :: 'a' :: 'l' :: 's' :: 'e' :: r => some (.jbool false, r)
    | '"' :: r => (parseStringBody (r.length + 1) r).map (fun p => (.jstr p.1, p.2))
    | '[' :: r =>
      (match skipWs r with
       | ']' :: r2 => some (.jarr [], r2)
       | r2 => (parseElems fuel r2).map (fun p => (.jarr p.1, p.2)))
    | '{' :: r =>
      (match skipWs r with
       | '}' :: r2 => some (.jobj [], r2)
       | r2 => (parseMembers fuel r2).map (fun p => (.jobj p.1, p.2)))
    | r =>
      (parseNumber r).map (fun p => (.jnum p.1, p.2))

/-- Parse one or more array elements separated by commas, up to the closing
bracket. -/
def parseElems : Nat → List Char → Option (List Json × List Char)
  | 0, _ => none
  | fuel + 1, s =>
    match parseValue fuel s with
    | none => none
    | some (v, r) =>
      match skipWs r with
      | ',' :: r2 => (parseElems fuel r2).map (fun p => (v :: p.1, p.2))
      | ']' :: r2 => some ([v], r2)
      | _ => none

/-- Parse one or more object members separated by commas, up to the closing
brace. -/
def parseMembers : Nat → List Char → Option (List (List Char × Json) × List Char)
  | 0, _ => none
  | fuel + 1, s =>
    match skipWs s with
    | '"' :: r =>
      match parseStringBody (r.length + 1) r with
      | none => none
      | some (key, r2) =>
        match skipWs r2 with
        | ':' :: r3 =>
          match parseValue fuel r3 with
          | none => none
          | some (v, r4) =>
            match skipWs r4 with
            | ',' :: r5 => (parseMembers fuel r5).map (fun p => ((key, v) :: p.1, p.2))
            | '}' :: r5 => some ([(key, v)], r5)
            | _ => none
        | _ => none
    | _ => none

end

/-- `JSON.parse(s)`: parse one value and require the whole input to be
consumed (up to trailing whitespace).  `none` models the `SyntaxError`
that the source catches and swallows. -/
def parseJson (s : List Char) : Option Json :=
  match parseValue (s.length + 1) s with
  | some (v, rest) => if skipWs rest = [] then some v else none
  | none => none

/-! ## Payload extraction (`emitTextsFromObj`)

src/api/gemini/stream.js lines 51-65, duplicated at src/api/gemini.js
lines 207-221 and 322-336 and src/api/gemini/silent.js (stream variant):
walk `obj?.candidates`, each candidate's `c?.content?.parts`, and collect
every part's `p?.text` that is a non-empty string. -/

/-- Object property lookup.  `JSON.parse` keeps the last of duplicate keys,
so the lookup takes the last matching member. -/
def jget (fields : List (List Char × Json)) (key : List Char) : Option Json :=
  (fields.reverse.find? (fun p => p.1 == key)).map (fun p => p.2)

/-- JavaScript optional-chain property access `j?.key`: `undefined` (none)
on anything that is not an object with that property. -/
def jsGet (j : Json) (key : List Char) : Option Json :=
  match j with
  | .jobj fs => jget fs key
  | _ => none

/-- Fragments contributed by one part: `p?.text` when it is a non-empty
string (`typeof t === 'string' && t.length`). -/
def partTexts (p : Json) : List (List Char) :=
  match jsGet p (("text").toList) with
  | some (.jstr t) => if t.length ≠ 0 then [t] else []
  | _ => []

/-- Fragments contributed by one candidate: its `content.parts` array's
parts in order, skipped entirely when `c?.content?.parts` is not an array. -/
def candidateTexts (c : Json) : List (List Char) :=
  match (jsGet c (("content").toList)).bind (fun ct => jsGet ct (("parts").toList)) with
  | some (.jarr ps) => ps.flatMap partTexts
  | _ => []

/-- All text fragments of one parsed payload object, in encounter order. -/
def emitTextsFromObj (obj : Json) : List (List Char) :=
  match jsGet obj (("candidates").toList) with
  | some (.jarr cs) => cs.flatMap candidateTexts
  | _ => []

/-! ## Per-line processing and frames

The body shared by both loops of `handleText` (src/api/gemini/stream.js
lines 73-79 and 83-89): trim, skip empty/comment/event lines, strip a
case-insensitive `data:` prefix and trim again, then `JSON.parse` inside
try/catch with failures swallowed. -/

/-- Process one raw line, returning the fragments it contributes. -/
def processLine (raw : List Char) : List (List Char) :=
  let line := jsTrim raw
  if line = [] then []
  else if line.headD ' ' = ':' then []
  else if leadsWith (("event:").toList) (lowerStr line) then []
  else
    let line2 := if leadsWith (("data:").toList) (lowerStr line) then jsTrim (line.drop 5) else line
    if line2 = [] then []
    else
      match parseJson line2 with
      | some j => emitTextsFromObj j
      | none => []

/-- Process one frame: `frame.split(/\r?\n/)` and each raw line in order
(src/api/gemini/stream.js line 73). -/
def processFrame (frame : List Char) : List (List Char) :=
  (splitFrameLines frame).flatMap processLine

/-- Result of one of the two `while` loops of `handleText`: the remaining
buffer, the frames (or fallback lines) consumed, and the fragments emitted. -/
structure LoopOut where
  buffer : List Char
  units : List (List Char)
  frags : List (List Char)

/-- The primary loop of `handleText` (src/api/gemini/stream.js lines
70-80): repeatedly take the text before the first `\n\n` as a frame and
advance the buffer past the delimiter.  Fuel-indexed; each iteration
consumes at least two characters, so `b.length` fuel always suffices. -/
def frameLoopF : Nat → List Char → LoopOut
  | 0, b => ⟨b, [], []⟩
  | fuel + 1, b =>
    match breakOnNl2 b with
    | none => ⟨b, [], []⟩
    | some (f, r) =>
      let out := frameLoopF fuel r
      ⟨out.buffer, f :: out.units, processFrame f ++ out.frags⟩

/-- The primary (double-newline) loop of `handleText`. -/
def frameLoop (b : List Char) : LoopOut := frameLoopF b.length b

/-- The fallback loop of `handleText` (src/api/gemini/stream.js lines
82-90, comment "NDJSON fallback" at src/api/gemini.js line 238):
repeatedly take the text before the first `\n` as a line.  Fuel-indexed;
each iteration consumes at least one character. -/
def lineLoopF : Nat → List Char → LoopOut
  | 0, b => ⟨b, [], []⟩
  | fuel + 1, b =>
    match breakOnNl b with
    | none => ⟨b, [], []⟩
    | some (a, r) =>
      let out := lineLoopF fuel r
      ⟨out.buffer, a :: out.units, processLine a ++ out.frags⟩

/-- The fallback (single-newline) loop of `handleText`. -/
def lineLoop (b : List Char) : LoopOut := lineLoopF b.length b

/-- Result of one `handleText(textChunk)` call: the new buffer, the frames
consumed by the primary loop, the lines consumed by the fallback loop, and
all fragments emitted, in order. -/
structure HandleOut where
  buffer : List Char
  frames : List (List Char)
  flines : List (List Char)
  frags : List (List Char)

/-- `handleText(textChunk)` (src/api/gemini/stream.js lines 67-91): append
the chunk to the buffer, drain complete `\n\n` frames, then drain the
fallback single-newline lines. -/
def handleText (buffer chunk : List Char) : HandleOut :=
  let fl := frameLoop (buffer ++ chunk)
  let ll := lineLoop fl.buffer
  ⟨ll.buffer, fl.units, ll.units, fl.frags ++ ll.frags⟩

/-- Drive `handleText` over a sequence of arriving text chunks, starting
from a given buffer; returns the final buffer and the per-call outputs. -/
def runChunks (b : List Char) : List (List Char) → List Char × List HandleOut
  | [] => (b, [])
  | c :: cs =>
    let h := handleText b c
    let rest := runChunks h.buffer cs
    (rest.1, h :: rest.2)

/-- The end-of-stream step `if (buffer.trim()) handleText('\n')`
(src/api/gemini/stream.js line 109, 121, 130). -/
def endFlush (b : List Char) : List HandleOut :=
  if jsTrim b ≠ [] then [handleText b ['\n']] else []

/-- All `handleText` outputs of one session: one per arriving chunk, plus
the end-of-stream flush call when the leftover buffer is non-whitespace. -/
def sessionOuts (chunks : List (List Char)) : List HandleOut :=
  let r := runChunks [] chunks
  r.2 ++ endFlush r.1

/-- The fragments a session emits, in order. -/
def sessionFrags (chunks : List (List Char)) : List (List Char) :=
  (sessionOuts chunks).flatMap (fun h => h.frags)

/-- The frames the primary loop consumes over a session, in order. -/
def sessionFrames (chunks : List (List Char)) : List (List Char) :=
  (sessionOuts chunks).flatMap (fun h => h.frames)

/-! ## Sliding-window rate limiter

src/api/gemini.js lines 83-95. -/

/-- `WINDOW_MS = 60_000`. -/
def WINDOW_MS : Int := 60000

/-- `MAX_REQ = 10`. -/
def MAX_REQ : Nat := 10

/-- `requestTimes.filter(t => now - t < WINDOW_MS)`. -/
def prune (now : Int) (times : List Int) : List Int :=
  times.filter (fun t => now - t < WINDOW_MS)

/-- `geminiRateLimiter()` (src/api/gemini.js lines 88-95) as a pure
function of "now" and the stored timestamps: prune, reject without append
when the pruned count reaches `MAX_REQ`, otherwise append "now" and accept. -/
def admitCall (now : Int) (times : List Int) : Bool × List Int :=
  let pruned := prune now times
  if MAX_REQ ≤ pruned.length then (false, pruned) else (true, pruned ++ [now])

/-- Run the limiter over a sequence of call instants, returning the final
stored timestamps and each call's (instant, decision) pair in order. -/
def runAdmit (st : List Int) : List Int → List Int × List (Int × Bool)
  | [] => (st, [])
  | now :: rest =>
    let a := admitCall now st
    let out := runAdmit a.2 rest
    (out.1, (now, a.1) :: out.2)

/-- The instants of the admitted calls of a run, in order. -/
def admittedOf (l : List (Int × Bool)) : List Int :=
  (l.filter (fun p => p.2)).map (fun p => p.1)

/-- Body of the `GET /api/gemini/limit` response (src/api/gemini.js lines
127-132). -/
structure LimitResp where
  limit : Nat
  remaining : Nat
  windowMs : Int
  secondsRemaining : Nat
deriving DecidableEq

/-- The `GET /api/gemini/limit` computation (src/api/gemini.js lines
115-133): prune without appending, report `limit`, `remaining`,
`windowMs` and `secondsRemaining = Math.ceil(msRemaining / 1000)` with
`msRemaining = Math.max(0, WINDOW_MS - (now - requestTimes[0]))` when the
limit is reached and the list is non-empty. -/
def limitStatus (now : Int) (times : List Int) : LimitResp × List Int :=
  let pruned := prune now times
  let reached := MAX_REQ ≤ pruned.length
  let msRemaining : Int :=
    if reached ∧ pruned.length ≠ 0 then max 0 (WINDOW_MS - (now - pruned.headD 0)) else 0
  (⟨if reached then 1 else 0, MAX_REQ - pruned.length, WINDOW_MS,
    (msRemaining.toNat + 999) / 1000⟩, pruned)

/-! ## Truthiness and the non-streaming text extraction

src/api/gemini/index.js line 40 and src/api/gemini.js line 49:
`data?.candidates?.[0]?.content?.parts?.[0]?.text || ''`. -/

/-- Whether a JSON number token denotes zero: its mantissa holds no
non-zero digit (the exponent cannot make a non-zero mantissa zero). -/
def numIsZero (raw : List Char) : Bool :=
  (raw.takeWhile (fun c => c ≠ 'e' ∧ c ≠ 'E')).all (fun c => ¬ c.isDigit ∨ c = '0')

/-- JavaScript truthiness of a JSON value (`undefined` is handled by the
callers through `Option`). -/
def truthy : Json → Bool
  | .jnull => false
  | .jbool b => b
  | .jnum raw => ¬ numIsZero raw
  | .jstr s => s.length ≠ 0
  | .jarr _ => true
  | .jobj _ => true

/-- JavaScript optional-chain index access `j?.[n]`: array element, string
character (as a one-character string), or an object's property named by the
decimal numeral; `undefined` otherwise. -/
def jidx (j : Json) (n : Nat) : Option Json :=
  match j with
  | .jarr l => l.get? n
  | .jstr s => (s.get? n).map (fun c => .jstr [c])
  | .jobj fs => jget fs (Nat.toDigits 10 n)
  | _ => none

/-- The optional chain `data?.candidates?.[0]?.content?.parts?.[0]?.text`. -/
def textPath (data : Json) : Option Json :=
  ((((jsGet data (("candidates").toList)).bind (fun cs => jidx cs 0)).bind
      (fun c => jsGet c (("content").toList))).bind
      (fun ct => jsGet ct (("parts").toList))).bind
      (fun ps => jidx ps 0) |>.bind (fun p => jsGet p (("text").toList))

/-- `data?.candidates?.[0]?.content?.parts?.[0]?.text || ''`: the chain's
value when it exists and is truthy, the empty string otherwise. -/
def extractTextOrEmpty (data : Json) : Json :=
  match textPath data with
  | some v => if truthy v then v else .jstr []
  | none => .jstr []

/-! ## Handler models

Each HTTP exchange is modelled as the ordered list of observable actions
the handler performs on the response object and the upstream connection.
The upstream `fetch` outcome and the delivered body chunks are inputs; the
heartbeat interval is modelled by a schedule saying how many ping writes
fall before each processed chunk (the timer can only fire while it is
armed and the JavaScript event loop is not inside the chunk handler). -/

/-- Observable actions on the response and upstream. -/
inductive Act where
  | sseHeaders : Act
  | startHb : Act
  | clearHb : Act
  | callUpstream : Act
  | writePing : Act
  | writeData (t : List Char) : Act
  | writeDoneEvt : Act
  | writeDoneData : Act
  | writeErr (msg : List Char) : Act
  | endStream : Act
  | jsonResp (status : Nat) (body : Json) : Act
  | emptyResp (status : Nat) : Act
  | limitResp (body : LimitResp) : Act

/-- The three recognized upstream body shapes, plus the unrecognized case. -/
inductive Shape where
  | reader : Shape
  | emitter : Shape
  | asyncIter : Shape
  | unknown : Shape
deriving DecidableEq

/-- How the upstream stream terminates. -/
inductive EndKind where
  | normal : EndKind
  | errored (msg : List Char) : EndKind

/-- An upstream streaming response. -/
structure Upstream where
  ok : Bool
  status : Nat
  hasBody : Bool
  shape : Shape
  chunks : List (List Char)
  endKind : EndKind
  detail : List Char

/-- An upstream non-streaming response; `body = none` models a response
whose body is not valid JSON (`res.json()` throws).  `detail` stands for
the error-message text the source derives from the response: on a non-ok
status the `json?.error?.message || JSON.stringify(json)` / raw-text
detail (in the combined handler, composed into the thrown
`Gemini API error ...` message), and on an unparsable ok body the
`message` of the error `res.json()` threw. -/
structure UpstreamJson where
  ok : Bool
  status : Nat
  body : Option Json
  detail : List Char

/-- Outcome of `fetch`: a response, or a thrown network error. -/
inductive FetchResult (α : Type) where
  | success (u : α) : FetchResult α
  | throwErr (msg : List Char) : FetchResult α

/-- `{ error: msg }`. -/
def errBody (msg : List Char) : Json := .jobj [(("error").toList, .jstr msg)]

/-- "Missing prompt". -/
def missingPromptMsg : List Char := ("Missing prompt").toList

/-- "Input too long, 50k tokens max". -/
def tooLongMsg : List Char := ("Input too long, 50k tokens max").toList

/-- "Unknown upstream body stream type". -/
def unknownShapeMsg : List Char := ("Unknown upstream body stream type").toList

/-- "Missing Gemini API key" — the dedicated handlers' 500 body
(src/api/gemini/index.js line 16, src/api/gemini/stream.js line 15). -/
def missingKeyMsg : List Char := ("Missing Gemini API key").toList

/-- The longer missing-key message thrown by the combined handler's
`generateContent` / `streamGenerateContent` (src/api/gemini.js lines 24
and 55). -/
def missingKeyMsgFull : List Char :=
  ("Missing Gemini API key. Set GEMINI_API_KEY or GOOGLE_GEMINI_API_KEY in environment").toList

/-- `INPUT_TOKEN_LIMIT = 50_000`. -/
def INPUT_TOKEN_LIMIT : Nat := 50000

/-- `APPROX_CHARS_PER_TOKEN = 4`. -/
def APPROX_CHARS_PER_TOKEN : Nat := 4

/-- `maxChars = Math.floor(INPUT_TOKEN_LIMIT * APPROX_CHARS_PER_TOKEN)`. -/
def maxChars : Nat := INPUT_TOKEN_LIMIT * APPROX_CHARS_PER_TOKEN

/-- `n` heartbeat ping writes. -/
def pingActs (n : Nat) : List Act := List.replicate n Act.writePing

/-- Drive the streaming pipeline over the delivered chunks: before each
chunk the armed heartbeat may fire (per the schedule), then the chunk's
fragments are written as `data:` events.  Returns the writes and the final
buffer. -/
def driveChunks (b : List Char) (sched : List Nat) : List (List Char) → List Act × List Char
  | [] => ([], b)
  | c :: cs =>
    let h := handleText b c
    let rest := driveChunks h.buffer sched.tail cs
    (pingActs (sched.headD 0) ++ h.frags.map Act.writeData ++ rest.1, rest.2)

/-- The end-of-stream flush writes (`if (buffer.trim()) handleText('\n')`). -/
def flushActs (b : List Char) : List Act :=
  (endFlush b).flatMap (fun h => h.frags.map Act.writeData)

/-- Streaming of a recognized body shape after headers and heartbeat are
set up, shared by the three shape branches: process every chunk, then on
normal end run the flush and `flushDone()` (src/api/gemini/stream.js lines
93-98), and on upstream error clear the heartbeat and close — writing an
in-band `event: error` frame first only in the combined handler
(src/api/gemini.js lines 263-267, 278-282, 292-296), not in the dedicated
one (src/api/gemini/stream.js lines 111-114, 122, 132-135). -/
def streamCore (errFrame : Bool) (u : Upstream) (sched : List Nat) : List Act :=
  let d := driveChunks [] sched u.chunks
  d.1 ++ pingActs (sched.getD u.chunks.length 0) ++
    match u.endKind with
    | .normal => flushActs d.2 ++ [.clearHb, .writeDoneEvt, .writeDoneData, .endStream]
    | .errored msg =>
      if errFrame then [.clearHb, .writeErr msg, .endStream] else [.clearHb, .endStream]

/-- The request data relevant to the dedicated handlers: whether an API
key is configured, whether the prompt is a non-empty string, and the
prompt's length. -/
structure StreamReq where
  hasKey : Bool
  promptValid : Bool
  promptLen : Nat

/-- The dedicated `POST /api/gemini/stream` handler
(src/api/gemini/stream.js, POST path): guards, `fetch`, non-ok short
circuit as a JSON response carrying the upstream status, then SSE headers,
heartbeat, and the shape branches.  The unknown-shape branch responds 502
without clearing the heartbeat (lines 137-138); a `fetch` throw is caught
with headers unsent and becomes a 500 JSON response (lines 140-141). -/
def streamJsHandler (r : StreamReq) (fetched : FetchResult Upstream) (sched : List Nat) :
    List Act :=
  if ¬ r.hasKey then [.jsonResp 500 (errBody missingKeyMsg)]
  else if ¬ r.promptValid then [.jsonResp 400 (errBody missingPromptMsg)]
  else if maxChars < r.promptLen then [.jsonResp 400 (errBody tooLongMsg)]
  else
    match fetched with
    | .throwErr msg => [.callUpstream, .jsonResp 500 (errBody msg)]
    | .success u =>
      if ¬ u.ok ∨ ¬ u.hasBody then [.callUpstream, .jsonResp u.status (errBody u.detail)]
      else
        .callUpstream :: .sseHeaders :: .startHb ::
        (match u.shape with
         | .unknown => [.jsonResp 502 (errBody unknownShapeMsg)]
         | _ => streamCore false u sched)

/-- The dedicated `POST /api/gemini` handler (src/api/gemini/index.js):
guards, `fetch`, upstream-status propagation on non-ok, and on success the
`{ text }` body built by `extractTextOrEmpty`. -/
def indexJsHandler (r : StreamReq) (fetched : FetchResult UpstreamJson) : List Act :=
  if ¬ r.hasKey then [.jsonResp 500 (errBody missingKeyMsg)]
  else if ¬ r.promptValid then [.jsonResp 400 (errBody missingPromptMsg)]
  else if maxChars < r.promptLen then [.jsonResp 400 (errBody tooLongMsg)]
  else
    match fetched with
    | .throwErr msg => [.callUpstream, .jsonResp 500 (errBody msg)]
    | .success u =>
      if ¬ u.ok then [.callUpstream, .jsonResp u.status (errBody u.detail)]
      else
        match u.body with
        | none => [.callUpstream, .jsonResp 500 (errBody u.detail)]
        | some data =>
          [.callUpstream, .jsonResp 200 (.jobj [(("text").toList, extractTextOrEmpty data)])]

/-- The dedicated `POST /api/gemini/silent` handler
(src/api/gemini/silent.js): CORS, 405 for non-POST, empty 500 without a
key (line 16), empty 400 for a missing or non-string prompt (line 19) —
and NO input-length guard anywhere — then the upstream `fetch` (line 25).
`upstream.json().catch(() => ({}))` can never throw and `upstream.ok`
is never consulted, so every fetched response, whatever its status or
body, ends in the server-side `console.log` of the extracted text and an
empty 204 (line 29); only a throwing `fetch` reaches the catch's empty
500 (line 31). -/
def silentJsHandler (r : StreamReq) (fetched : FetchResult UpstreamJson) : List Act :=
  if ¬ r.hasKey then [.emptyResp 500]
  else if ¬ r.promptValid then [.emptyResp 400]
  else
    match fetched with
    | .throwErr _ => [.callUpstream, .emptyResp 500]
    | .success _ => [.callUpstream, .emptyResp 204]

/-- Error thrown by `generateContent` / `streamGenerateContent`
(src/api/gemini.js lines 21-80), distinguishing the "Input too long, 50k
tokens max" message that the route handlers map to a 400 status (the
`e.message.includes('tokens max')` test of lines 155 and 170); no other
thrown message contains that substring. -/
inductive GcErr where
  | tooLong : GcErr
  | other (msg : List Char) : GcErr

/-- The message carried by a `GcErr`. -/
def gcErrMsg : GcErr → List Char
  | .tooLong => tooLongMsg
  | .other msg => msg

/-- `generateContent(prompt, opts)` (src/api/gemini.js lines 21-50): key
and length guards before `fetch`, thrown errors on network failure,
non-ok status or unparsable body, and on success the value of the
optional-chain text extraction with empty-string fallback.  Also returns
whether an upstream call was issued.  The non-ok throw carries the
composed `Gemini API error ...` text and the unparsable-body throw the
parse error's own message, both modeled by `u.detail` (see
`UpstreamJson`). -/
def generateContentRun (rq : StreamReq) (fetched : FetchResult UpstreamJson) :
    List Act × Except GcErr Json :=
  if ¬ rq.hasKey then ([], .error (.other missingKeyMsgFull))
  else if maxChars < rq.promptLen then ([], .error .tooLong)
  else
    match fetched with
    | .throwErr msg => ([.callUpstream], .error (.other msg))
    | .success u =>
      if ¬ u.ok then ([.callUpstream], .error (.other u.detail))
      else
        match u.body with
        | none => ([.callUpstream], .error (.other u.detail))
        | some data => ([.callUpstream], .ok (extractTextOrEmpty data))

/-- `streamGenerateContent(prompt, opts)` (src/api/gemini.js lines 52-80):
key and length guards before `fetch`, thrown errors on network failure or
a non-ok / body-less response, otherwise the streaming response. -/
def streamGenerateContentRun (rq : StreamReq) (fetched : FetchResult Upstream) :
    List Act × Except GcErr Upstream :=
  if ¬ rq.hasKey then ([], .error (.other missingKeyMsgFull))
  else if maxChars < rq.promptLen then ([], .error .tooLong)
  else
    match fetched with
    | .throwErr msg => ([.callUpstream], .error (.other msg))
    | .success u =>
      if ¬ u.ok ∨ ¬ u.hasBody then ([.callUpstream], .error (.other u.detail))
      else ([.callUpstream], .ok u)

/-- The `POST /api/gemini` route of the combined handler (src/api/gemini.js
lines 147-158). -/
def geminiRootRoute (rq : StreamReq) (fetched : FetchResult UpstreamJson) : List Act :=
  if ¬ rq.promptValid then [.jsonResp 400 (errBody missingPromptMsg)]
  else
    let g := generateContentRun rq fetched
    g.1 ++
      match g.2 with
      | .ok text => [.jsonResp 200 (.jobj [(("text").toList, text)])]
      | .error .tooLong => [.jsonResp 400 (errBody tooLongMsg)]
      | .error (.other msg) => [.jsonResp 500 (errBody msg)]

/-- The `POST /api/gemini/silent` route of the combined handler
(src/api/gemini.js lines 161-173). -/
def geminiSilentRoute (rq : StreamReq) (fetched : FetchResult UpstreamJson) : List Act :=
  if ¬ rq.promptValid then [.emptyResp 400]
  else
    let g := generateContentRun rq fetched
    g.1 ++
      match g.2 with
      | .ok _ => [.emptyResp 204]
      | .error .tooLong => [.emptyResp 400]
      | .error (.other _) => [.emptyResp 500]

/-- The `POST /api/gemini/stream` route of the combined handler
(src/api/gemini.js lines 176-310).  The SSE headers and the heartbeat are
set up BEFORE `streamGenerateContent` is called (lines 183-191), so any
throw from it — including the length guard and an upstream rejection — is
caught at lines 301-308 with `res.headersSent` true and is reported as an
in-band `event: error` frame followed by `res.end()`, without clearing
the heartbeat interval.  The unknown-shape throw of line 299 takes the
same path. -/
def geminiStreamRoute (rq : StreamReq) (fetched : FetchResult Upstream) (sched : List Nat) :
    List Act :=
  if ¬ rq.promptValid then [.jsonResp 400 (errBody missingPromptMsg)]
  else
    .sseHeaders :: .startHb ::
    (let g := streamGenerateContentRun rq fetched
     g.1 ++
       match g.2 with
       | .error e => [.writeErr (gcErrMsg e), .endStream]
       | .ok u =>
         match u.shape with
         | .unknown => [.writeErr unknownShapeMsg, .endStream]
         | _ => streamCore true u sched)

/-- The `POST /api/gemini/stream/silent` route of the combined handler
(src/api/gemini.js lines 313-396): consumes the stream silently, then 204;
a `streamGenerateContent` throw becomes an empty 500, an unknown shape a
502 JSON response.  A stream error on the reader and async-iterator paths
throws out of the `await` loop into the catch of lines 393-395 (empty
500), while the emitter path's promise resolves on `error` as well as
`end` (lines 379-380), so an errored emitter stream still ends in 204. -/
def geminiStreamSilentRoute (rq : StreamReq) (fetched : FetchResult Upstream) : List Act :=
  if ¬ rq.promptValid then [.emptyResp 400]
  else
    let g := streamGenerateContentRun rq fetched
    g.1 ++
      match g.2 with
      | .error _ => [.emptyResp 500]
      | .ok u =>
        match u.shape with
        | .unknown => [.jsonResp 502 (errBody unknownShapeMsg)]
        | .emitter => [.emptyResp 204]
        | _ =>
          match u.endKind with
          | .normal => [.emptyResp 204]
          | .errored _ => [.emptyResp 500]

/-- Subpaths routed by the combined handler (src/api/gemini.js lines
105-112). -/
inductive Subpath where
  | root : Subpath
  | silent : Subpath
  | stream : Subpath
  | streamSilent : Subpath
  | limit : Subpath
  | other : Subpath
deriving DecidableEq

/-- HTTP methods the combined handler distinguishes. -/
inductive Method where
  | options : Method
  | get : Method
  | post : Method
deriving DecidableEq

/-- The combined `/api/gemini...` serverless handler (src/api/gemini.js
lines 97-399) as a function of the request, "now", the stored limiter
timestamps, and the upstream outcomes; returns the action trace and the
limiter timestamps left behind.  Order of the source: OPTIONS 204, then
`GET /limit`, then 405 for non-POST, then the rate-limiter gate (429 on
rejection), then the subpath routes. -/
def geminiHandler (method : Method) (sp : Subpath) (rq : StreamReq) (now : Int)
    (times : List Int) (fetchedJson : FetchResult UpstreamJson)
    (fetchedStream : FetchResult Upstream) (sched : List Nat) : List Act × List Int :=
  match method with
  | .options => ([.emptyResp 204], times)
  | .get =>
    if sp = Subpath.limit then
      let ls := limitStatus now times
      ([.limitResp ls.1], ls.2)
    else ([.jsonResp 405 (errBody (("Method Not Allowed").toList))], times)
  | .post =>
    let a := admitCall now times
    if ¬ a.1 then ([.emptyResp 429], a.2)
    else
      (match sp with
       | .root => geminiRootRoute rq fetchedJson
       | .silent => geminiSilentRoute rq fetchedJson
       | .stream => geminiStreamRoute rq fetchedStream sched
       | .streamSilent => geminiStreamSilentRoute rq fetchedStream
       | .limit => [.jsonResp 404 (errBody (("Unknown Gemini route").toList))]
       | .other => [.jsonResp 404 (errBody (("Unknown Gemini route").toList))], a.2)

/-! ## Trace predicates -/

/-- Whether an action is the arming of the heartbeat interval. -/
def Act.isStartHb : Act → Bool
  | .startHb => true
  | _ => false

/-- Whether an action is `clearInterval(hb)`. -/
def Act.isClearHb : Act → Bool
  | .clearHb => true
  | _ => false

/-- Whether an action sends the SSE headers. -/
def Act.isSse : Act → Bool
  | .sseHeaders => true
  | _ => false

/-- Whether an action issues the upstream call. -/
def Act.isCall : Act → Bool
  | .callUpstream => true
  | _ => false

/-- Whether an action is a write to the outbound SSE sink. -/
def Act.isWrite : Act → Bool
  | .writePing => true
  | .writeData _ => true
  | .writeDoneEvt => true
  | .writeDoneData => true
  | .writeErr _ => true
  | _ => false

/-- Whether an action closes the exchange: `res.end()` or a single
non-streaming response (which sends and ends). -/
def Act.isClose : Act → Bool
  | .endStream => true
  | .jsonResp _ _ => true
  | .emptyResp _ => true
  | .limitResp _ => true
  | _ => false

/-- Whether an action completes a terminal event: the `data: "[DONE]"`
write ending the done pair, an `event: error` frame, or a non-streaming
response. -/
def Act.isTerminal : Act → Bool
  | .writeDoneData => true
  | .writeErr _ => true
  | .jsonResp _ _ => true
  | .emptyResp _ => true
  | .limitResp _ => true
  | _ => false

/-- Whether an action is an in-band `event: error` frame. -/
def Act.isErrFrame : Act → Bool
  | .writeErr _ => true
  | _ => false

/-- Whether an action is a JSON response with the given status. -/
def Act.isJsonRespWith (status : Nat) : Act → Bool
  | .jsonResp s _ => s = status
  | _ => false

/-- Whether an action is any single non-streaming response. -/
def Act.isResp : Act → Bool
  | .jsonResp _ _ => true
  | .emptyResp _ => true
  | .limitResp _ => true
  | _ => false

/-- No write to the outbound sink occurs after a terminal action. -/
def NoWriteAfterTerminal (tr : List Act) : Prop :=
  ∀ pre a post, tr = pre ++ a :: post → a.isTerminal → post.countP Act.isWrite = 0

/-! ## Canonical segmentation helpers (for stating the reassembler's
behaviour) -/

/-- The pieces of the newline-split of `s` that are terminated by a
newline (all but the last). -/
def completeSegs (s : List Char) : List (List Char) := (splitOnNl s).dropLast

/-- The piece of the newline-split of `s` after the last newline. -/
def lastSeg (s : List Char) : List Char := (splitOnNl s).getLastD []

/-- Merge a leading piece into the head of a split result. -/
def glueHead (x : List Char) : List (List Char) → List (List Char)
  | [] => [x]
  | h :: t => (x ++ h) :: t

/-- Join lines with single newlines (no trailing newline). -/
def joinNl : List (List Char) → List Char
  | [] => []
  | [s] => s
  | s :: rest => s ++ '\n' :: joinNl rest

/-! ## Lemmas: trimming and line splitting -/

theorem splitOnNl_nil : splitOnNl [] = [[]] := rfl

theorem splitOnNl_cons_nl (t : List Char) : splitOnNl ('\n' :: t) = [] :: splitOnNl t := by
  simp [splitOnNl]

theorem splitOnNl_cons_ne (c : Char) (t : List Char) (hc : c ≠ '\n') :
    splitOnNl (c :: t) = consHead c (splitOnNl t) := by
  simp [splitOnNl, hc]

theorem splitOnNl_ne_nil (s : List Char) : splitOnNl s ≠ [] := by
  cases s with
  | nil => simp [splitOnNl]
  | cons c rest =>
    by_cases hc : c = '\n'
    · subst hc
      rw [splitOnNl_cons_nl]
      simp
    · rw [splitOnNl_cons_ne c rest hc]
      cases h : splitOnNl rest with
      | nil => simp [consHead]
      | cons x xs => simp [consHead]

theorem consHead_append (c : Char) (l m : List (List Char)) (h : l ≠ []) :
    consHead c (l ++ m) = consHead c l ++ m := by
  cases l with
  | nil => exact absurd rfl h
  | cons x xs => simp [consHead]

theorem splitOnNl_append_nl (a b : List Char) :
    splitOnNl (a ++ '\n' :: b) = splitOnNl a ++ splitOnNl b := by
  induction a with
  | nil => simp [splitOnNl]
  | cons c a ih =>
    rw [List.cons_append]
    by_cases hc : c = '\n'
    · subst hc
      rw [splitOnNl_cons_nl, splitOnNl_cons_nl, ih, List.cons_append]
    · rw [splitOnNl_cons_ne c _ hc, splitOnNl_cons_ne c _ hc, ih,
        consHead_append c _ _ (splitOnNl_ne_nil a)]

theorem noNl_splitOnNl (s : List Char) (h : '\n' ∉ s) : splitOnNl s = [s] := by
  induction s with
  | nil => rfl
  | cons c rest ih =>
    have hc : c ≠ '\n' := fun he => h (he ▸ List.mem_cons_self c rest)
    have hr : '\n' ∉ rest := fun hm => h (List.mem_cons_of_mem c hm)
    rw [splitOnNl_cons_ne c rest hc, ih hr]
    rfl

theorem mem_splitOnNl_noNl (s x : List Char) (hx : x ∈ splitOnNl s) : '\n' ∉ x := by
  induction s generalizing x with
  | nil =>
    simp [splitOnNl] at hx
    simp [hx]
  | cons c rest ih =>
    by_cases hc : c = '\n'
    · subst hc
      rw [splitOnNl_cons_nl] at hx
      rcases List.mem_cons.mp hx with h | h
      · simp [h]
      · exact ih x h
    · rw [splitOnNl_cons_ne c rest hc] at hx
      cases hsp : splitOnNl rest with
      | nil => exact absurd hsp (splitOnNl_ne_nil rest)
      | cons y ys =>
        rw [hsp] at hx
        simp only [consHead] at hx
        rcases List.mem_cons.mp hx with h | h
        · subst h
          intro hmem
          rcases List.mem_cons.mp hmem with he | hm
          · exact hc he.symm
          · exact ih y (hsp ▸ List.mem_cons_self y ys) hm
        · exact ih x (hsp ▸ List.mem_cons_of_mem y h)

theorem lastSeg_mem (s : List Char) : lastSeg s ∈ splitOnNl s := by
  unfold lastSeg
  cases h : splitOnNl s with
  | nil => exact absurd h (splitOnNl_ne_nil s)
  | cons x xs =>
    rw [List.getLastD_cons]
    exact List.getLastD_mem_cons xs x

theorem lastSeg_noNl (s : List Char) : '\n' ∉ lastSeg s :=
  mem_splitOnNl_noNl s _ (lastSeg_mem s)

theorem trimRight_append_ws (s : List Char) (c : Char) (hc : isJsWs c = true) :
    trimRight (s ++ [c]) = trimRight s := by
  unfold trimRight
  rw [List.reverse_append]
  simp [List.dropWhile_cons, hc]

theorem jsTrim_append_ws (s : List Char) (c : Char) (hc : isJsWs c = true) :
    jsTrim (s ++ [c]) = jsTrim s := by
  unfold jsTrim
  rw [trimRight_append_ws s c hc]

theorem processLine_of_jsTrim_eq (a b : List Char) (h : jsTrim a = jsTrim b) :
    processLine a = processLine b := by
  unfold processLine
  rw [h]

theorem processLine_dropTrailingCR (s : List Char) :
    processLine (dropTrailingCR s) = processLine s := by
  unfold dropTrailingCR
  split
  · rename_i h
    have hne : s ≠ [] := by
      intro he
      subst he
      simp at h
    apply processLine_of_jsTrim_eq
    have hlast : s.getLast hne = '\r' := by
      cases s with
      | nil => exact absurd rfl hne
      | cons a l =>
        rw [List.getLast_eq_getLastD]
        rw [List.getLastD_cons] at h
        exact h
    calc jsTrim s.dropLast
        = jsTrim (s.dropLast ++ [s.getLast hne]) := by
          rw [jsTrim_append_ws _ _ (by rw [hlast]; rfl)]
      _ = jsTrim s := by rw [List.dropLast_concat_getLast hne]
  · rfl

theorem processLine_nil : processLine [] = [] := by
  rfl

theorem stripInit_flatMap (l : List (List Char)) :
    (stripInit l).flatMap processLine = l.flatMap processLine := by
  induction l with
  | nil => rfl
  | cons s rest ih =>
    cases rest with
    | nil => rfl
    | cons t ts =>
      simp only [stripInit, List.flatMap_cons] at *
      rw [processLine_dropTrailingCR, ih]

/-! ## Lemmas: buffer splitting at delimiters -/

theorem breakOnNl_none (s : List Char) (h : breakOnNl s = none) : '\n' ∉ s := by
  induction s with
  | nil => simp
  | cons c rest ih =>
    unfold breakOnNl at h
    by_cases hc : c = '\n'
    · rw [if_pos hc] at h
      exact absurd h (by simp)
    · rw [if_neg hc] at h
      intro hm
      rcases List.mem_cons.mp hm with he | hm2
      · exact hc he.symm
      · cases hb : breakOnNl rest with
        | none => exact ih hb hm2
        | some p => rw [hb] at h; simp at h

theorem breakOnNl_some (s a r : List Char) (h : breakOnNl s = some (a, r)) :
    s = a ++ '\n' :: r ∧ '\n' ∉ a := by
  induction s generalizing a with
  | nil => simp [breakOnNl] at h
  | cons c rest ih =>
    unfold breakOnNl at h
    by_cases hc : c = '\n'
    · rw [if_pos hc] at h
      simp only [Option.some.injEq, Prod.mk.injEq] at h
      subst hc
      rw [← h.1, ← h.2]
      exact ⟨rfl, by simp⟩
    · rw [if_neg hc] at h
      cases hb : breakOnNl rest with
      | none => rw [hb] at h; simp at h
      | some p =>
        obtain ⟨p1, p2⟩ := p
        rw [hb] at h
        simp only [Option.map_some', Option.some.injEq, Prod.mk.injEq] at h
        obtain ⟨h1, h2⟩ := h
        obtain ⟨hs, hna⟩ := ih p1 (by rw [hb, h2])
        rw [← h1]
        constructor
        · rw [List.cons_append, ← hs]
        · intro hm
          rcases List.mem_cons.mp hm with he | hm2
          · exact hc he.symm
          · exact hna hm2

theorem breakOnNl2_cons_ne (c : Char) (t : List Char) (hc : c ≠ '\n') :
    breakOnNl2 (c :: t) = (breakOnNl2 t).map (fun p => (c :: p.1, p.2)) := by
  simp [breakOnNl2, hc]

theorem breakOnNl2_nl_cons_ne (d : Char) (t : List Char) (hd : d ≠ '\n') :
    breakOnNl2 ('\n' :: d :: t) =
      (breakOnNl2 (d :: t)).map (fun p => ('\n' :: p.1, p.2)) := by
  apply breakOnNl2.eq_2
  intro r1 _ h2
  exact hd (by injection h2)

theorem breakOnNl2_some (s f r : List Char) (h : breakOnNl2 s = some (f, r)) :
    s = f ++ '\n' :: '\n' :: r := by
  induction s generalizing f with
  | nil => exact Option.noConfusion h
  | cons c rest ih =>
    by_cases hc : c = '\n'
    · subst hc
      cases rest with
      | nil => exact Option.noConfusion h
      | cons d rest2 =>
        by_cases hd : d = '\n'
        · subst hd
          rw [breakOnNl2.eq_1] at h
          simp only [Option.some.injEq, Prod.mk.injEq] at h
          rw [← h.1, ← h.2]
          rfl
        · rw [breakOnNl2_nl_cons_ne d rest2 hd] at h
          cases hb : breakOnNl2 (d :: rest2) with
          | none => rw [hb] at h; simp at h
          | some p =>
            obtain ⟨p1, p2⟩ := p
            rw [hb] at h
            simp only [Option.map_some', Option.some.injEq, Prod.mk.injEq] at h
            obtain ⟨h1, h2⟩ := h
            have hs := ih p1 (by rw [hb, h2])
            rw [← h1, List.cons_append, ← hs]
    · rw [breakOnNl2_cons_ne c rest hc] at h
      cases hb : breakOnNl2 rest with
      | none => rw [hb] at h; simp at h
      | some p =>
        obtain ⟨p1, p2⟩ := p
        rw [hb] at h
        simp only [Option.map_some', Option.some.injEq, Prod.mk.injEq] at h
        obtain ⟨h1, h2⟩ := h
        have hs := ih p1 (by rw [hb, h2])
        rw [← h1, List.cons_append, ← hs]

theorem glueHead_ne_nil (x : List Char) (l : List (List Char)) : glueHead x l ≠ [] := by
  cases l <;> simp [glueHead]

theorem getLastD_of_ne_nil (l : List (List Char)) (d1 d2 : List Char) (h : l ≠ []) :
    l.getLastD d1 = l.getLastD d2 := by
  cases hl : l.getLast? with
  | none => exact absurd (List.getLast?_eq_none_iff.mp hl) h
  | some y =>
    rw [List.getLastD_eq_getLast?, List.getLastD_eq_getLast?, hl]
    rfl

theorem lastSeg_cons_nl (a : List Char) : lastSeg ('\n' :: a) = lastSeg a := by
  unfold lastSeg
  rw [splitOnNl_cons_nl, List.getLastD_cons]

theorem splitOnNl_append (a b : List Char) :
    splitOnNl (a ++ b) = (splitOnNl a).dropLast ++ glueHead (lastSeg a) (splitOnNl b) := by
  induction a with
  | nil =>
    cases hb : splitOnNl b with
    | nil => exact absurd hb (splitOnNl_ne_nil b)
    | cons h t => simp [splitOnNl, lastSeg, glueHead, hb]
  | cons c a ih =>
    by_cases hc : c = '\n'
    · subst hc
      rw [List.cons_append, splitOnNl_cons_nl, ih, splitOnNl_cons_nl,
        List.dropLast_cons_of_ne_nil (splitOnNl_ne_nil a), lastSeg_cons_nl, List.cons_append]
    · rw [List.cons_append, splitOnNl_cons_ne c _ hc, ih, splitOnNl_cons_ne c _ hc]
      have hlast : lastSeg (c :: a) = (consHead c (splitOnNl a)).getLastD [] := by
        unfold lastSeg
        rw [splitOnNl_cons_ne c _ hc]
      cases hsp : splitOnNl a with
      | nil => exact absurd hsp (splitOnNl_ne_nil a)
      | cons x xs =>
        cases xs with
        | nil =>
          cases hb : splitOnNl b with
          | nil => exact absurd hb (splitOnNl_ne_nil b)
          | cons y ys =>
            have h1 : lastSeg a = x := by
              unfold lastSeg
              rw [hsp, List.getLastD_cons, List.getLastD_nil]
            have h2 : lastSeg (c :: a) = c :: x := by
              rw [hlast, hsp]
              simp only [consHead, List.getLastD_cons, List.getLastD_nil]
            rw [h1, h2]
            simp [consHead, glueHead, List.cons_append]
        | cons z zs =>
          have h1 : lastSeg a = (z :: zs).getLastD [] := by
            unfold lastSeg
            rw [hsp, List.getLastD_cons]
            exact getLastD_of_ne_nil (z :: zs) x [] (by simp)
          have h2 : lastSeg (c :: a) = (z :: zs).getLastD [] := by
            rw [hlast, hsp]
            simp only [consHead, List.getLastD_cons]
          rw [h1, h2]
          simp [consHead, List.dropLast_cons₂, List.cons_append]

theorem lastSeg_lastSeg (s : List Char) : lastSeg (lastSeg s) = lastSeg s := by
  show (splitOnNl (lastSeg s)).getLastD [] = lastSeg s
  rw [noNl_splitOnNl _ (lastSeg_noNl s)]
  rfl

theorem splitOnNl_lastSeg_append (s c : List Char) :
    splitOnNl (lastSeg s ++ c) = glueHead (lastSeg s) (splitOnNl c) := by
  rw [splitOnNl_append, noNl_splitOnNl _ (lastSeg_noNl s), lastSeg_lastSeg]
  simp

theorem completeSegs_append (s c : List Char) :
    completeSegs (s ++ c) = completeSegs s ++ completeSegs (lastSeg s ++ c) := by
  unfold completeSegs
  rw [splitOnNl_append s c, splitOnNl_lastSeg_append,
    List.dropLast_append_of_ne_nil _ (glueHead_ne_nil _ _)]

theorem lastSeg_append (s c : List Char) :
    lastSeg (s ++ c) = lastSeg (lastSeg s ++ c) := by
  show (splitOnNl (s ++ c)).getLastD [] = (splitOnNl (lastSeg s ++ c)).getLastD []
  rw [splitOnNl_append s c, splitOnNl_lastSeg_append]
  rw [List.getLastD_eq_getLast?, List.getLastD_eq_getLast?, List.getLast?_append]
  cases hg : (glueHead (lastSeg s) (splitOnNl c)).getLast? with
  | none => exact absurd (List.getLast?_eq_none_iff.mp hg) (glueHead_ne_nil _ _)
  | some y => simp

/-! ## Lemmas: the two loops of `handleText` compute the canonical
line decomposition -/

theorem getLastD_append_ne_nil (A B : List (List Char)) (hB : B ≠ []) :
    (A ++ B).getLastD [] = B.getLastD [] := by
  rw [List.getLastD_eq_getLast?, List.getLastD_eq_getLast?, List.getLast?_append]
  cases hg : B.getLast? with
  | none => exact absurd (List.getLast?_eq_none_iff.mp hg) hB
  | some y => simp

theorem processFrame_eq (f : List Char) :
    processFrame f = (splitOnNl f).flatMap processLine := by
  unfold processFrame splitFrameLines
  exact stripInit_flatMap _

theorem lineLoopF_char (fuel : Nat) : ∀ s : List Char, s.length ≤ fuel →
    lineLoopF fuel s = ⟨lastSeg s, completeSegs s, (completeSegs s).flatMap processLine⟩ := by
  induction fuel with
  | zero =>
    intro s h
    have hnil : s = [] := List.eq_nil_of_length_eq_zero (Nat.le_zero.mp h)
    subst hnil
    rfl
  | succ fuel ih =>
    intro s h
    cases hb : breakOnNl s with
    | none =>
      have hnn : '\n' ∉ s := breakOnNl_none s hb
      have hsp := noNl_splitOnNl s hnn
      have hstep : lineLoopF (fuel + 1) s = ⟨s, [], []⟩ := by
        simp only [lineLoopF]
        rw [hb]
      rw [hstep]
      unfold lastSeg completeSegs
      rw [hsp]
      rfl
    | some p =>
      obtain ⟨a, r⟩ := p
      obtain ⟨hs, hna⟩ := breakOnNl_some s a r hb
      have hlen : r.length ≤ fuel := by
        rw [hs] at h
        simp at h
        omega
      have hR := splitOnNl_ne_nil r
      have hsplit : splitOnNl s = a :: splitOnNl r := by
        rw [hs, splitOnNl_append_nl, noNl_splitOnNl a hna]
        rfl
      have hcs : completeSegs s = a :: completeSegs r := by
        unfold completeSegs
        rw [hsplit, List.dropLast_cons_of_ne_nil hR]
      have hls : lastSeg s = lastSeg r := by
        unfold lastSeg
        rw [hsplit, List.getLastD_cons]
        exact getLastD_of_ne_nil _ _ _ hR
      have hstep : lineLoopF (fuel + 1) s =
          ⟨(lineLoopF fuel r).buffer, a :: (lineLoopF fuel r).units,
            processLine a ++ (lineLoopF fuel r).frags⟩ := by
        simp only [lineLoopF]
        rw [hb]
      rw [hstep, ih r hlen, hcs, hls]
      simp

theorem lineLoop_char (s : List Char) :
    lineLoop s = ⟨lastSeg s, completeSegs s, (completeSegs s).flatMap processLine⟩ :=
  lineLoopF_char s.length s (Nat.le_refl _)

theorem frameLineChar (fuel : Nat) : ∀ s : List Char, s.length ≤ fuel →
    (lineLoop (frameLoopF fuel s).buffer).buffer = lastSeg s ∧
    (frameLoopF fuel s).frags ++ (lineLoop (frameLoopF fuel s).buffer).frags =
      (completeSegs s).flatMap processLine := by
  induction fuel with
  | zero =>
    intro s h
    have hnil : s = [] := List.eq_nil_of_length_eq_zero (Nat.le_zero.mp h)
    subst hnil
    constructor <;> rfl
  | succ fuel ih =>
    intro s h
    cases hb : breakOnNl2 s with
    | none =>
      have hstep : frameLoopF (fuel + 1) s = ⟨s, [], []⟩ := by
        simp only [frameLoopF]
        rw [hb]
      rw [hstep, lineLoop_char]
      exact ⟨rfl, rfl⟩
    | some p =>
      obtain ⟨f, r⟩ := p
      have hs := breakOnNl2_some s f r hb
      have hlen : r.length ≤ fuel := by
        rw [hs] at h
        simp at h
        omega
      have hR := splitOnNl_ne_nil r
      have hsplit : splitOnNl s = splitOnNl f ++ [] :: splitOnNl r := by
        rw [hs, splitOnNl_append_nl, splitOnNl_cons_nl]
      have hcs : completeSegs s = splitOnNl f ++ [] :: completeSegs r := by
        unfold completeSegs
        rw [hsplit, List.dropLast_append_cons, List.dropLast_cons_of_ne_nil hR]
      have hls : lastSeg s = lastSeg r := by
        unfold lastSeg
        rw [hsplit, getLastD_append_ne_nil _ _ (by simp), List.getLastD_cons]
      obtain ⟨ihb, ihf⟩ := ih r hlen
      have hstep : frameLoopF (fuel + 1) s =
          ⟨(frameLoopF fuel r).buffer, f :: (frameLoopF fuel r).units,
            processFrame f ++ (frameLoopF fuel r).frags⟩ := by
        simp only [frameLoopF]
        rw [hb]
      rw [hstep]
      constructor
      · rw [ihb, hls]
      · rw [hcs]
        simp only [List.flatMap_append, List.flatMap_cons, processLine_nil,
          List.nil_append, processFrame_eq]
        rw [List.append_assoc, ihf]

theorem handleText_buffer (b c : List Char) :
    (handleText b c).buffer = lastSeg (b ++ c) :=
  (frameLineChar (b ++ c).length (b ++ c) (Nat.le_refl _)).1

theorem handleText_frags (b c : List Char) :
    (handleText b c).frags = (completeSegs (b ++ c)).flatMap processLine :=
  (frameLineChar (b ++ c).length (b ++ c) (Nat.le_refl _)).2

/-! ## Lemmas: driving `handleText` over chunks -/

theorem lastSeg_of_noNl (b : List Char) (h : '\n' ∉ b) : lastSeg b = b := by
  unfold lastSeg
  rw [noNl_splitOnNl b h]
  rfl

theorem completeSegs_of_noNl (b : List Char) (h : '\n' ∉ b) : completeSegs b = [] := by
  unfold completeSegs
  rw [noNl_splitOnNl b h]
  rfl

theorem runChunks_char : ∀ (cs : List (List Char)) (b : List Char), '\n' ∉ b →
    (runChunks b cs).1 = lastSeg (b ++ cs.flatten) ∧
    ((runChunks b cs).2.flatMap fun o => o.frags) =
      (completeSegs (b ++ cs.flatten)).flatMap processLine := by
  intro cs
  induction cs with
  | nil =>
    intro b hb
    constructor
    · simp [runChunks, lastSeg_of_noNl b hb]
    · simp [runChunks, completeSegs_of_noNl b hb]
  | cons c cs ih =>
    intro b hb
    have hbuf : (handleText b c).buffer = lastSeg (b ++ c) := handleText_buffer b c
    have hnn : '\n' ∉ lastSeg (b ++ c) := lastSeg_noNl (b ++ c)
    obtain ⟨ih1, ih2⟩ := ih (lastSeg (b ++ c)) hnn
    have hjoin : b ++ (c :: cs).flatten = (b ++ c) ++ cs.flatten := by simp
    constructor
    · show (runChunks (handleText b c).buffer cs).1 = _
      rw [hbuf, ih1, hjoin]
      exact (lastSeg_append (b ++ c) cs.flatten).symm
    · show ((handleText b c :: (runChunks (handleText b c).buffer cs).2).flatMap
          fun o => o.frags) = _
      rw [List.flatMap_cons, hbuf, ih2, handleText_frags, hjoin,
        completeSegs_append (b ++ c) cs.flatten, List.flatMap_append]

theorem sessionFrags_eq_of_join (cs cs' : List (List Char)) (h : cs.flatten = cs'.flatten) :
    sessionFrags cs = sessionFrags cs' := by
  unfold sessionFrags sessionOuts
  rw [List.flatMap_append, List.flatMap_append]
  obtain ⟨m1, m2⟩ := runChunks_char cs [] (by simp)
  obtain ⟨m3, m4⟩ := runChunks_char cs' [] (by simp)
  rw [m1, m2, m3, m4, List.nil_append, List.nil_append, h]

theorem breakOnNl_none_of_noNl (s : List Char) (h : '\n' ∉ s) : breakOnNl s = none := by
  cases hb : breakOnNl s with
  | none => rfl
  | some p =>
    obtain ⟨a, r⟩ := p
    obtain ⟨hs, _⟩ := breakOnNl_some s a r hb
    exact absurd (hs ▸ (by simp : '\n' ∈ a ++ '\n' :: r)) h

theorem handleText_buffer_noNl (b c : List Char) :
    breakOnNl ((handleText b c).buffer) = none := by
  rw [handleText_buffer]
  exact breakOnNl_none_of_noNl _ (lastSeg_noNl _)

theorem frameLoopF_post (fuel : Nat) : ∀ b : List Char, b.length ≤ fuel →
    breakOnNl2 ((frameLoopF fuel b).buffer) = none := by
  induction fuel with
  | zero =>
    intro b h
    have hnil : b = [] := List.eq_nil_of_length_eq_zero (Nat.le_zero.mp h)
    subst hnil
    rfl
  | succ fuel ih =>
    intro b h
    cases hb : breakOnNl2 b with
    | none =>
      have hstep : frameLoopF (fuel + 1) b = ⟨b, [], []⟩ := by
        simp only [frameLoopF]
        rw [hb]
      rw [hstep]
      exact hb
    | some p =>
      obtain ⟨f, r⟩ := p
      have hs := breakOnNl2_some b f r hb
      have hlen : r.length ≤ fuel := by
        rw [hs] at h
        simp at h
        omega
      have hstep : frameLoopF (fuel + 1) b =
          ⟨(frameLoopF fuel r).buffer, f :: (frameLoopF fuel r).units,
            processFrame f ++ (frameLoopF fuel r).frags⟩ := by
        simp only [frameLoopF]
        rw [hb]
      rw [hstep]
      exact ih r hlen

theorem frameLoop_post (b : List Char) : breakOnNl2 ((frameLoop b).buffer) = none :=
  frameLoopF_post b.length b (Nat.le_refl _)

/-! ## Lemmas: the sliding-window rate limiter -/

theorem admittedOf_cons_true (now : Int) (t : List (Int × Bool)) :
    admittedOf ((now, true) :: t) = now :: admittedOf t := by
  simp [admittedOf]

theorem admittedOf_cons_false (now : Int) (t : List (Int × Bool)) :
    admittedOf ((now, false) :: t) = admittedOf t := by
  simp [admittedOf]

theorem prune_filter_window (A : List Int) (m now : Int) (hmn : m ≤ now) :
    prune now (A.filter (fun a => decide (m - a < WINDOW_MS))) =
      A.filter (fun a => decide (now - a < WINDOW_MS)) := by
  unfold prune
  rw [List.filter_filter]
  apply List.filter_congr
  intro x _
  by_cases hx : now - x < WINDOW_MS
  · have hm : m - x < WINDOW_MS := lt_of_le_of_lt (by omega) hx
    simp [hx, hm]
  · simp [hx]

theorem admit_reject (now : Int) (st : List Int) (h : MAX_REQ ≤ (prune now st).length) :
    admitCall now st = (false, prune now st) := by
  unfold admitCall
  rw [if_pos h]

theorem admit_accept (now : Int) (st : List Int) (h : ¬ MAX_REQ ≤ (prune now st).length) :
    admitCall now st = (true, prune now st ++ [now]) := by
  unfold admitCall
  rw [if_neg h]

theorem runAdmit_state : ∀ (ts : List Int) (st A : List Int) (m : Int),
    List.Chain (· ≤ ·) m ts →
    st = A.filter (fun a => decide (m - a < WINDOW_MS)) →
    st.length ≤ MAX_REQ →
    (runAdmit st ts).1 =
      (A ++ admittedOf (runAdmit st ts).2).filter
        (fun a => decide ((ts.getLastD m) - a < WINDOW_MS)) ∧
    (runAdmit st ts).1.length ≤ MAX_REQ := by
  intro ts
  induction ts with
  | nil =>
    intro st A m _ hst hlen
    simp only [runAdmit, admittedOf, List.filter_nil, List.map_nil, List.append_nil,
      List.getLastD_nil]
    exact ⟨hst, hlen⟩
  | cons now rest ih =>
    intro st A m hch hst hlen
    have hmn : m ≤ now := (List.chain_cons.mp hch).1
    have hch2 : List.Chain (· ≤ ·) now rest := (List.chain_cons.mp hch).2
    have hprune : prune now st = A.filter (fun a => decide (now - a < WINDOW_MS)) := by
      rw [hst]
      exact prune_filter_window A m now hmn
    have hplen : (prune now st).length ≤ st.length := List.length_filter_le _ _
    by_cases hd : MAX_REQ ≤ (prune now st).length
    · have hadm := admit_reject now st hd
      have ihres := ih (prune now st) A now hch2 hprune (le_trans hplen hlen)
      show ((runAdmit (admitCall now st).2 rest).1 =
          (A ++ admittedOf ((now, (admitCall now st).1) :: (runAdmit (admitCall now st).2 rest).2)).filter
            (fun a => decide (((now :: rest).getLastD m) - a < WINDOW_MS))) ∧
        (runAdmit (admitCall now st).2 rest).1.length ≤ MAX_REQ
      rw [hadm]
      simp only [admittedOf_cons_false, List.getLastD_cons]
      exact ihres
    · have hadm := admit_accept now st hd
      have hst2 : prune now st ++ [now] =
          (A ++ [now]).filter (fun a => decide (now - a < WINDOW_MS)) := by
        rw [List.filter_append, hprune]
        have : (0 : Int) < WINDOW_MS := by norm_num [WINDOW_MS]
        simp [this]
      have hlen2 : (prune now st ++ [now]).length ≤ MAX_REQ := by
        simp only [List.length_append, List.length_cons, List.length_nil]
        omega
      have ihres := ih (prune now st ++ [now]) (A ++ [now]) now hch2 hst2 hlen2
      show ((runAdmit (admitCall now st).2 rest).1 =
          (A ++ admittedOf ((now, (admitCall now st).1) :: (runAdmit (admitCall now st).2 rest).2)).filter
            (fun a => decide (((now :: rest).getLastD m) - a < WINDOW_MS))) ∧
        (runAdmit (admitCall now st).2 rest).1.length ≤ MAX_REQ
      rw [hadm]
      simp only [admittedOf_cons_true, List.getLastD_cons]
      rw [show A ++ now :: admittedOf (runAdmit (prune now st ++ [now]) rest).2 =
          (A ++ [now]) ++ admittedOf (runAdmit (prune now st ++ [now]) rest).2 by simp]
      exact ihres

theorem runAdmit_state_initial (ts : List Int) (hne : ts ≠ [])
    (hch : List.Chain' (· ≤ ·) ts) :
    (runAdmit [] ts).1 =
      (admittedOf (runAdmit [] ts).2).filter
        (fun a => decide ((ts.getLastD 0) - a < WINDOW_MS)) ∧
    (runAdmit [] ts).1.length ≤ MAX_REQ := by
  cases ts with
  | nil => exact absurd rfl hne
  | cons h tl =>
    have hch2 : List.Chain (· ≤ ·) h (h :: tl) :=
      List.chain_cons.mpr ⟨le_refl h, hch⟩
    have := runAdmit_state (h :: tl) [] [] h hch2 rfl (by simp [MAX_REQ])
    simpa using this

theorem admitted_window_bound (p : List Int) (t : Int)
    (hch : List.Chain' (· ≤ ·) (p ++ [t])) :
    ((admittedOf ((runAdmit [] (p ++ [t])).2)).filter
        (fun a => decide (t - a < WINDOW_MS))).length ≤ MAX_REQ := by
  obtain ⟨h1, h2⟩ := runAdmit_state_initial (p ++ [t]) (by simp) hch
  rw [List.getLastD_concat] at h1
  rw [← h1]
  exact h2

theorem eleventh_rejected (p : List Int) (t : Int)
    (hch : List.Chain' (· ≤ ·) (p ++ [t]))
    (hfull : MAX_REQ ≤ ((admittedOf ((runAdmit [] p).2)).filter
        (fun a => decide (t - a < WINDOW_MS))).length) :
    (runAdmit (runAdmit [] p).1 [t]).2 = [(t, false)] := by
  cases hp : p with
  | nil =>
    subst hp
    simp [runAdmit, admittedOf, MAX_REQ] at hfull
  | cons h tl =>
    subst hp
    have hch1 : List.Chain' (· ≤ ·) (h :: tl) :=
      (List.chain'_append.mp hch).1
    obtain ⟨h1, h2⟩ := runAdmit_state_initial (h :: tl) (by simp) hch1
    have hle : (h :: tl).getLastD 0 ≤ t := by
      have h3 := (List.chain'_append.mp hch).2.2
      have h4 : (h :: tl).getLast? = some ((h :: tl).getLastD 0) := by
        cases htl : (h :: tl).getLast? with
        | none => simp at htl
        | some y =>
          rw [List.getLastD_eq_getLast?, htl]
          rfl
      exact h3 _ (by rw [h4]; rfl) t rfl
    have hpr : prune t (runAdmit [] (h :: tl)).1 =
        (admittedOf (runAdmit [] (h :: tl)).2).filter
          (fun a => decide (t - a < WINDOW_MS)) := by
      rw [h1]
      exact prune_filter_window _ _ _ hle
    have hrej : MAX_REQ ≤ (prune t (runAdmit [] (h :: tl)).1).length := by
      rw [hpr]
      exact hfull
    show ((runAdmit (admitCall t (runAdmit [] (h :: tl)).1).2 []).1,
        (t, (admitCall t (runAdmit [] (h :: tl)).1).1) ::
          (runAdmit (admitCall t (runAdmit [] (h :: tl)).1).2 []).2).2 = [(t, false)]
    rw [admit_reject _ _ hrej]
    simp [runAdmit]

theorem admit_after_window (now : Int) (st : List Int)
    (h : ∀ s ∈ st, WINDOW_MS ≤ now - s) : admitCall now st = (true, [now]) := by
  have hp : prune now st = [] := by
    unfold prune
    rw [List.filter_eq_nil_iff]
    intro a ha
    simpa using not_lt.mpr (h a ha)
  unfold admitCall
  rw [hp]
  simp [MAX_REQ]

/-! ## Lemmas: action traces of the streaming handlers -/

theorem driveChunks_write_acts : ∀ (cs : List (List Char)) (b : List Char) (sched : List Nat)
    (a : Act), a ∈ (driveChunks b sched cs).1 →
    a = Act.writePing ∨ ∃ t, a = Act.writeData t := by
  intro cs
  induction cs with
  | nil =>
    intro b sched a ha
    simp [driveChunks] at ha
  | cons c cs ih =>
    intro b sched a ha
    simp only [driveChunks, List.mem_append] at ha
    rcases ha with (ha | ha) | ha
    · left
      exact List.eq_of_mem_replicate ha
    · right
      obtain ⟨t, _, ht⟩ := List.mem_map.mp ha
      exact ⟨t, ht.symm⟩
    · exact ih _ _ a ha

theorem pingActs_write_acts (n : Nat) (a : Act) (ha : a ∈ pingActs n) : a = Act.writePing :=
  List.eq_of_mem_replicate ha

theorem flushActs_write_acts (b : List Char) (a : Act) (ha : a ∈ flushActs b) :
    ∃ t, a = Act.writeData t := by
  unfold flushActs at ha
  obtain ⟨h, _, hh⟩ := List.mem_flatMap.mp ha
  obtain ⟨t, _, ht⟩ := List.mem_map.mp hh
  exact ⟨t, ht.symm⟩

theorem write_act_flags (a : Act) (h : a = Act.writePing ∨ ∃ t, a = Act.writeData t) :
    a.isTerminal = false ∧ a.isClearHb = false ∧ a.isClose = false ∧ a.isSse = false ∧
    a.isStartHb = false ∧ a.isErrFrame = false ∧ a.isCall = false := by
  rcases h with h | ⟨t, h⟩ <;> subst h <;>
    exact ⟨rfl, rfl, rfl, rfl, rfl, rfl, rfl⟩

theorem countP_eq_zero_of_flags (p : Act → Bool) (l : List Act)
    (h : ∀ a ∈ l, p a = false) : l.countP p = 0 := by
  rw [List.countP_eq_zero]
  intro a ha
  simp [h a ha]

/-- No write after a terminal action, for a trace made of a harmless prefix
followed by a suffix with the property. -/
theorem nwat_extend (S : List Act) (hS : NoWriteAfterTerminal S) :
    ∀ P : List Act, (∀ a ∈ P, a.isTerminal = false) → NoWriteAfterTerminal (P ++ S) := by
  intro P
  induction P with
  | nil =>
    intro _
    simpa using hS
  | cons x P ih =>
    intro hP pre a post heq hterm
    cases pre with
    | nil =>
      simp only [List.nil_append, List.cons_append] at heq
      have hx : x = a := by injection heq
      rw [← hx] at hterm
      rw [hP x (List.mem_cons_self x P)] at hterm
      exact absurd hterm (by simp)
    | cons y pre2 =>
      simp only [List.cons_append] at heq
      have h2 : P ++ S = pre2 ++ a :: post := by injection heq
      exact ih (fun b hb => hP b (List.mem_cons_of_mem x hb)) pre2 a post h2 hterm

theorem nwat_nil : NoWriteAfterTerminal [] := by
  intro pre a post heq _
  exact absurd heq (by cases pre <;> simp)

theorem nwat_cons (x : Act) (l : List Act)
    (hx : x.isTerminal = true → l.countP Act.isWrite = 0)
    (hl : NoWriteAfterTerminal l) : NoWriteAfterTerminal (x :: l) := by
  intro pre a post heq hterm
  cases pre with
  | nil =>
    simp only [List.nil_append] at heq
    have h1 : x = a := by injection heq
    have h2 : l = post := by injection heq
    rw [← h2]
    exact hx (h1 ▸ hterm)
  | cons y pre2 =>
    simp only [List.cons_append] at heq
    have h2 : l = pre2 ++ a :: post := by injection heq
    exact hl pre2 a post h2 hterm

theorem nwat_done_suffix :
    NoWriteAfterTerminal [Act.clearHb, Act.writeDoneEvt, Act.writeDoneData, Act.endStream] := by
  refine nwat_cons _ _ (fun h => by simp [Act.isTerminal] at h) ?_
  refine nwat_cons _ _ (fun h => by simp [Act.isTerminal] at h) ?_
  refine nwat_cons _ _ (fun _ => rfl) ?_
  refine nwat_cons _ _ (fun _ => rfl) ?_
  exact nwat_nil

theorem nwat_err_suffix (msg : List Char) :
    NoWriteAfterTerminal [Act.clearHb, Act.writeErr msg, Act.endStream] := by
  refine nwat_cons _ _ (fun h => by simp [Act.isTerminal] at h) ?_
  refine nwat_cons _ _ (fun _ => rfl) ?_
  refine nwat_cons _ _ (fun _ => rfl) ?_
  exact nwat_nil

theorem nwat_close_suffix : NoWriteAfterTerminal [Act.clearHb, Act.endStream] := by
  refine nwat_cons _ _ (fun h => by simp [Act.isTerminal] at h) ?_
  refine nwat_cons _ _ (fun _ => rfl) ?_
  exact nwat_nil

theorem nwat_single (x : Act) : NoWriteAfterTerminal [x] := by
  refine nwat_cons _ _ (fun _ => rfl) ?_
  exact nwat_nil

theorem countP_writes_zero (l : List Act)
    (hl : ∀ a ∈ l, a = Act.writePing ∨ ∃ t, a = Act.writeData t)
    (p : Act → Bool) (hp : p Act.writePing = false ∧ ∀ t, p (Act.writeData t) = false) :
    l.countP p = 0 := by
  apply countP_eq_zero_of_flags
  intro a ha
  rcases hl a ha with h | ⟨t, h⟩
  · rw [h, hp.1]
  · rw [h, hp.2 t]

theorem streamCore_pre_writes (u : Upstream) (sched : List Nat) (a : Act)
    (ha : a ∈ (driveChunks [] sched u.chunks).1 ++
      pingActs (sched.getD u.chunks.length 0) ++ flushActs (driveChunks [] sched u.chunks).2) :
    a = Act.writePing ∨ ∃ t, a = Act.writeData t := by
  simp only [List.mem_append] at ha
  rcases ha with (ha | ha) | ha
  · exact driveChunks_write_acts u.chunks [] sched a ha
  · exact Or.inl (pingActs_write_acts _ a ha)
  · exact Or.inr (flushActs_write_acts _ a ha)

theorem streamCore_normal_shape (e : Bool) (u : Upstream) (sched : List Nat)
    (hek : u.endKind = .normal) :
    streamCore e u sched =
      ((driveChunks [] sched u.chunks).1 ++ pingActs (sched.getD u.chunks.length 0) ++
        flushActs (driveChunks [] sched u.chunks).2) ++
      [Act.clearHb, Act.writeDoneEvt, Act.writeDoneData, Act.endStream] := by
  unfold streamCore
  rw [hek]
  simp [List.append_assoc]

theorem streamCore_errored_shape (e : Bool) (u : Upstream) (sched : List Nat)
    (msg : List Char) (hek : u.endKind = .errored msg) :
    streamCore e u sched =
      ((driveChunks [] sched u.chunks).1 ++ pingActs (sched.getD u.chunks.length 0)) ++
      (if e then [Act.clearHb, Act.writeErr msg, Act.endStream]
       else [Act.clearHb, Act.endStream]) := by
  unfold streamCore
  rw [hek]

theorem streamCore_guarantees (e : Bool) (u : Upstream) (sched : List Nat) :
    (streamCore e u sched).countP Act.isClearHb = 1 ∧
    (streamCore e u sched).countP Act.isClose = 1 ∧
    NoWriteAfterTerminal (streamCore e u sched) := by
  have hpingflags : (Act.writePing.isClearHb = false ∧ ∀ t, (Act.writeData t).isClearHb = false) ∧
      (Act.writePing.isClose = false ∧ ∀ t, (Act.writeData t).isClose = false) :=
    ⟨⟨rfl, fun _ => rfl⟩, ⟨rfl, fun _ => rfl⟩⟩
  cases hek : u.endKind with
  | normal =>
    rw [streamCore_normal_shape e u sched hek]
    have hz1 := countP_writes_zero _ (streamCore_pre_writes u sched) Act.isClearHb hpingflags.1
    have hz2 := countP_writes_zero _ (streamCore_pre_writes u sched) Act.isClose hpingflags.2
    refine ⟨?_, ?_, ?_⟩
    · rw [List.countP_append, hz1]
      rfl
    · rw [List.countP_append, hz2]
      rfl
    · apply nwat_extend _ nwat_done_suffix
      intro a ha
      rcases streamCore_pre_writes u sched a ha with h | ⟨t, h⟩ <;> rw [h] <;> rfl
  | errored msg =>
    rw [streamCore_errored_shape e u sched msg hek]
    have hpre : ∀ a ∈ (driveChunks [] sched u.chunks).1 ++
        pingActs (sched.getD u.chunks.length 0),
        a = Act.writePing ∨ ∃ t, a = Act.writeData t := by
      intro a ha
      rcases List.mem_append.mp ha with ha | ha
      · exact driveChunks_write_acts u.chunks [] sched a ha
      · exact Or.inl (pingActs_write_acts _ a ha)
    have hz1 := countP_writes_zero _ hpre Act.isClearHb hpingflags.1
    have hz2 := countP_writes_zero _ hpre Act.isClose hpingflags.2
    refine ⟨?_, ?_, ?_⟩
    · rw [List.countP_append, hz1]
      cases e <;> rfl
    · rw [List.countP_append, hz2]
      cases e <;> rfl
    · cases e
      · exact nwat_extend _ nwat_close_suffix _
          (fun a ha => by
            rcases hpre a ha with h | ⟨t, h⟩ <;> rw [h] <;> rfl)
      · exact nwat_extend _ (nwat_err_suffix msg) _
          (fun a ha => by
            rcases hpre a ha with h | ⟨t, h⟩ <;> rw [h] <;> rfl)

/-! ## Claim theorems -/

/-- Claim C4: `admitCall` (the `geminiRateLimiter` of src/api/gemini.js lines
88-95) first prunes timestamps at least `WINDOW_MS` old, returns false
without appending when the pruned count is at least `MAX_REQ = 10`, and
otherwise appends "now" and returns true; consequently, for nondecreasing
call instants, at most 10 calls are admitted within any rolling 60-second
window (measured at each call), the 11th call whose window already holds
10 admitted calls is rejected — and the combined handler answers such a
rejected POST with an empty 429 response — and once `WINDOW_MS` has
elapsed from every stored timestamp (in particular from the oldest
admitted call) admission resumes. -/
theorem c4_rate_limiter :
    (∀ (now : Int) (times : List Int),
      admitCall now times =
        if MAX_REQ ≤ (prune now times).length then (false, prune now times)
        else (true, prune now times ++ [now])) ∧
    (∀ (p : List Int) (t : Int), List.Chain' (· ≤ ·) (p ++ [t]) →
      ((admittedOf ((runAdmit [] (p ++ [t])).2)).filter
          (fun a => decide (t - a < WINDOW_MS))).length ≤ MAX_REQ) ∧
    (∀ (p : List Int) (t : Int), List.Chain' (· ≤ ·) (p ++ [t]) →
      MAX_REQ ≤ ((admittedOf ((runAdmit [] p).2)).filter
          (fun a => decide (t - a < WINDOW_MS))).length →
      (runAdmit (runAdmit [] p).1 [t]).2 = [(t, false)]) ∧
    (∀ (now : Int) (st : List Int), (∀ s ∈ st, WINDOW_MS ≤ now - s) →
      admitCall now st = (true, [now])) ∧
    (∀ (sp : Subpath) (rq : StreamReq) (now : Int) (times : List Int)
      (fj : FetchResult UpstreamJson) (fs : FetchResult Upstream) (sched : List Nat),
      MAX_REQ ≤ (prune now times).length →
      geminiHandler Method.post sp rq now times fj fs sched =
        ([Act.emptyResp 429], prune now times)) := by
  refine ⟨fun now times => rfl, admitted_window_bound, eleventh_rejected,
    admit_after_window, ?_⟩
  intro sp rq now times fj fs sched h
  show (let a := admitCall now times
    if ¬ a.1 then ([Act.emptyResp 429], a.2)
    else
      (match sp with
       | .root => geminiRootRoute rq fj
       | .silent => geminiSilentRoute rq fj
       | .stream => geminiStreamRoute rq fs sched
       | .streamSilent => geminiStreamSilentRoute rq fs
       | .limit => [Act.jsonResp 404 (errBody (("Unknown Gemini route").toList))]
       | .other => [Act.jsonResp 404 (errBody (("Unknown Gemini route").toList))], a.2)) =
    ([Act.emptyResp 429], prune now times)
  rw [admit_reject now times h]
  rfl

/-- Witness for C4 at concrete inputs: a monotone run of three calls at 0
followed by one at 5 stays within the bound; after ten admitted calls at 0
the call at 5 is rejected; the handler answers 429 when the window is
full; and a call at 70000 on stored timestamps 0 and 1000 is admitted with
a fresh window. -/
theorem c4_witness :
    (List.Chain' (· ≤ ·) ([0, 0, 0] ++ [5] : List Int) ∧
      ((admittedOf ((runAdmit [] (([0, 0, 0] : List Int) ++ [5])).2)).filter
          (fun a => decide ((5 : Int) - a < WINDOW_MS))).length ≤ MAX_REQ) ∧
    ((runAdmit (runAdmit [] ([0, 0, 0, 0, 0, 0, 0, 0, 0, 0] : List Int)).1 [5]).2 =
      [((5 : Int), false)]) ∧
    (admitCall 70000 [0, 1000] = (true, [70000])) ∧
    (geminiHandler Method.post Subpath.stream ⟨true, true, 0⟩ 0
        ([0, 0, 0, 0, 0, 0, 0, 0, 0, 0] : List Int) (.throwErr []) (.throwErr []) [] =
      ([Act.emptyResp 429], prune 0 [0, 0, 0, 0, 0, 0, 0, 0, 0, 0])) := by
  have hch1 : List.Chain' (· ≤ ·) ([0, 0, 0] ++ [5] : List Int) := by
    norm_num [List.chain'_cons, List.chain'_singleton]
  have hch2 : List.Chain' (· ≤ ·) (([0, 0, 0, 0, 0, 0, 0, 0, 0, 0] : List Int) ++ [5]) := by
    norm_num [List.chain'_cons, List.chain'_singleton]
  refine ⟨⟨hch1, c4_rate_limiter.2.1 [0, 0, 0] 5 hch1⟩,
    c4_rate_limiter.2.2.1 [0, 0, 0, 0, 0, 0, 0, 0, 0, 0] 5 hch2 (by decide),
    c4_rate_limiter.2.2.2.1 70000 [0, 1000] (by decide),
    c4_rate_limiter.2.2.2.2 Subpath.stream ⟨true, true, 0⟩ 0 _ (.throwErr []) (.throwErr []) []
      (by decide)⟩

/-- Claim C9: the `GET /api/gemini/limit` query (src/api/gemini.js lines
115-133) prunes expired timestamps without appending, and answers 200 with
`windowMs = 60000`, `limit` equal to 1 exactly when the pruned count
reaches 10 (0 otherwise), `remaining = max 0 (10 - count)`, and
`secondsRemaining` zero when not limited and otherwise the time until the
oldest retained timestamp (the head of the pruned list, which is minimal
when the stored instants are nondecreasing) leaves the 60-second window,
rounded up to whole seconds. -/
theorem c9_limit_status (now : Int) (times : List Int)
    (hsorted : List.Chain' (· ≤ ·) times) :
    (limitStatus now times).2 = prune now times ∧
    (limitStatus now times).1.windowMs = WINDOW_MS ∧
    ((limitStatus now times).1.limit = 1 ↔ MAX_REQ ≤ (prune now times).length) ∧
    ((limitStatus now times).1.limit = 1 ∨ (limitStatus now times).1.limit = 0) ∧
    ((limitStatus now times).1.remaining : Int) =
      max 0 ((MAX_REQ : Int) - (prune now times).length) ∧
    (¬ MAX_REQ ≤ (prune now times).length →
      (limitStatus now times).1.secondsRemaining = 0) ∧
    (MAX_REQ ≤ (prune now times).length →
      (∀ x ∈ prune now times, (prune now times).headD 0 ≤ x) ∧
      (limitStatus now times).1.secondsRemaining =
        (((prune now times).headD 0 + WINDOW_MS - now).toNat + 999) / 1000) ∧
    (∀ (rq : StreamReq) (fj : FetchResult UpstreamJson) (fs : FetchResult Upstream)
      (sched : List Nat),
      geminiHandler Method.get Subpath.limit rq now times fj fs sched =
        ([Act.limitResp (limitStatus now times).1], prune now times)) := by
  refine ⟨rfl, rfl, ?_, ?_, ?_, ?_, ?_, ?_⟩
  · unfold limitStatus
    by_cases h : MAX_REQ ≤ (prune now times).length <;> simp [h]
  · unfold limitStatus
    by_cases h : MAX_REQ ≤ (prune now times).length <;> simp [h]
  · unfold limitStatus
    simp only []
    have := List.length_filter_le (fun t => decide (now - t < WINDOW_MS)) times
    omega
  · intro h
    have h10 : ¬ (MAX_REQ ≤ (prune now times).length ∧ (prune now times).length ≠ 0) :=
      fun hcon => h hcon.1
    show ((if MAX_REQ ≤ (prune now times).length ∧ (prune now times).length ≠ 0 then
        max 0 (WINDOW_MS - (now - (prune now times).headD 0)) else 0).toNat + 999) / 1000 = 0
    rw [if_neg h10]
    rfl
  · intro h
    constructor
    · have hsub : List.Chain' (· ≤ ·) (prune now times) :=
        hsorted.sublist (List.filter_sublist times)
      cases hp : prune now times with
      | nil => intro x hx; simp at hx
      | cons y ys =>
        intro x hx
        rw [hp] at hsub
        have hpw := List.chain'_iff_pairwise.mp hsub
        rcases List.mem_cons.mp hx with he | hm
        · simp [he]
        · exact (List.pairwise_cons.mp hpw).1 x hm
    · have hne : (prune now times).length ≠ 0 := by
        have : (10 : Nat) ≤ (prune now times).length := h
        omega
      show ((if MAX_REQ ≤ (prune now times).length ∧ (prune now times).length ≠ 0 then
          max 0 (WINDOW_MS - (now - (prune now times).headD 0)) else 0).toNat + 999) / 1000 =
        (((prune now times).headD 0 + WINDOW_MS - now).toNat + 999) / 1000
      rw [if_pos ⟨h, hne⟩]
      congr 2
      omega
  · intro rq fj fs sched
    rfl

/-- Witness for C9: status query at time 5 with ten stored timestamps 0:
limited, zero remaining, and sixty seconds until the window frees. -/
theorem c9_witness :
    List.Chain' (· ≤ ·) ([0, 0, 0, 0, 0, 0, 0, 0, 0, 0] : List Int) ∧
    ((limitStatus 5 ([0, 0, 0, 0, 0, 0, 0, 0, 0, 0] : List Int)).1.limit = 1 ↔
      MAX_REQ ≤ (prune 5 ([0, 0, 0, 0, 0, 0, 0, 0, 0, 0] : List Int)).length) ∧
    (limitStatus 5 ([0, 0, 0, 0, 0, 0, 0, 0, 0, 0] : List Int)).1 = ⟨1, 0, 60000, 60⟩ := by
  have hch : List.Chain' (· ≤ ·) ([0, 0, 0, 0, 0, 0, 0, 0, 0, 0] : List Int) := by
    norm_num [List.chain'_cons, List.chain'_singleton]
  exact ⟨hch, (c9_limit_status 5 _ hch).2.2.1, by decide⟩

/-- Claim C2, counterexample to the frame-sequence part: the two chunk
sequences below concatenate to the same well-formed frame stream
"data: 1\n\n", yet the primary loop consumes one frame in the one-chunk
run and no frame at all in the split run (the fallback single-newline
loop, which runs on every `handleText` call, consumes the text first);
the extracted fragments still coincide. -/
theorem c2_counterexample :
    ([("data: 1\n\n").toList]).flatten =
      ([("data: 1\n").toList, ("\n").toList]).flatten ∧
    sessionFrames [("data: 1\n\n").toList] ≠
      sessionFrames [("data: 1\n").toList, ("\n").toList] ∧
    sessionFrags [("data: 1\n\n").toList] =
      sessionFrags [("data: 1\n").toList, ("\n").toList] := by
  refine ⟨by decide, by decide, by decide⟩

/-- Claim C2, amended: for every two chunk sequences whose concatenations
are the same text, the Frame Reassembler (`handleText` driven over the
chunks with the end-of-stream flush) emits the same ordered sequence of
extracted fragments — chunk-boundary independence of the observable
output, including delimiters split across chunks; the internal frame
decomposition, by contrast, depends on the chunking. -/
theorem c2_fragment_chunk_invariance (cs csb : List (List Char))
    (h : cs.flatten = csb.flatten) : sessionFrags cs = sessionFrags csb :=
  sessionFrags_eq_of_join cs csb h

/-- Witness for C2 at a concrete input: a payload frame split in the
middle of the JSON and across the double-newline delimiter yields the same
fragments as the unsplit stream. -/
theorem c2_witness :
    ([("data: 1\ndata: ").toList, ("2\n").toList, ("\n").toList]).flatten =
      ([("data: 1\ndata: 2\n\n").toList]).flatten ∧
    sessionFrags [("data: 1\ndata: ").toList, ("2\n").toList, ("\n").toList] =
      sessionFrags [("data: 1\ndata: 2\n\n").toList] := by
  refine ⟨by decide, c2_fragment_chunk_invariance _ _ (by decide)⟩

theorem runChunks_length : ∀ (cs : List (List Char)) (b : List Char),
    (runChunks b cs).2.length = cs.length := by
  intro cs
  induction cs with
  | nil => intro b; rfl
  | cons c cs ih =>
    intro b
    show (handleText b c :: (runChunks (handleText b c).buffer cs).2).length = cs.length + 1
    rw [List.length_cons, ih]

/-- Claim C3, counterexample: with two chunks "data: 1\n" and "data: 2\n"
arriving while the stream is still delivering (no end-of-stream yet), the
single-newline fallback loop consumes one buffered line inside each of the
two `handleText` invocations — it does not run once per session, and it
processes buffer content before the adapter signals end-of-stream. -/
theorem c3_counterexample :
    ((runChunks [] [("data: 1\n").toList, ("data: 2\n").toList]).2.map
        (fun o => o.flines)) =
      [[("data: 1").toList], [("data: 2").toList]] := by
  decide

/-- Claim C3, amended: the single-newline fallback loop runs inside every
`handleText` invocation, not once per session; within each invocation it
starts only after the primary double-newline loop has drained (its input
buffer holds no double newline) and it drains every newline; at
end-of-stream exactly one extra `handleText('\n')` pass is appended
when and only when the leftover buffer is non-whitespace. -/
theorem c3_fallback_per_invocation :
    (∀ b c : List Char, breakOnNl2 ((frameLoop (b ++ c)).buffer) = none) ∧
    (∀ b c : List Char, breakOnNl ((handleText b c).buffer) = none) ∧
    (∀ cs : List (List Char),
      (sessionOuts cs).length =
        cs.length + (if jsTrim (runChunks [] cs).1 ≠ [] then 1 else 0)) := by
  refine ⟨fun b c => frameLoop_post (b ++ c), handleText_buffer_noNl, ?_⟩
  intro cs
  unfold sessionOuts
  rw [List.length_append, runChunks_length]
  congr 1
  unfold endFlush
  by_cases h : jsTrim (runChunks [] cs).1 ≠ [] <;> simp [h]

theorem splitOnNl_joinNl : ∀ ls : List (List Char), ls ≠ [] → (∀ l ∈ ls, '\n' ∉ l) →
    splitOnNl (joinNl ls) = ls := by
  intro ls
  induction ls with
  | nil => intro h _; exact absurd rfl h
  | cons x t ih =>
    intro _ hnn
    cases t with
    | nil => exact noNl_splitOnNl x (hnn x (by simp))
    | cons y t2 =>
      show splitOnNl (x ++ '\n' :: joinNl (y :: t2)) = x :: y :: t2
      rw [splitOnNl_append_nl, noNl_splitOnNl x (hnn x (by simp)),
        ih (by simp) (fun l hl => hnn l (List.mem_cons_of_mem x hl))]
      rfl

theorem parseJson_nil : parseJson [] = none := rfl

theorem leads_head (c0 : Char) (pr t : List Char)
    (hd : leadsWith (c0 :: pr) (lowerStr t) = true) :
    ∃ c rest, t = c :: rest ∧ lowerChar c = c0 := by
  cases t with
  | nil => simp [leadsWith, lowerStr] at hd
  | cons c rest =>
    refine ⟨c, rest, rfl, ?_⟩
    simp only [leadsWith, lowerStr, List.map_cons, List.length_cons, List.take_succ_cons,
      List.cons_beq_cons, Bool.and_eq_true, beq_iff_eq] at hd
    exact hd.1

theorem processLine_empty (l : List Char) (h : jsTrim l = []) : processLine l = [] := by
  simp only [processLine]
  rw [if_pos h]

theorem processLine_comment (l : List Char) (h : (jsTrim l).headD ' ' = ':') :
    processLine l = [] := by
  simp only [processLine]
  by_cases he : jsTrim l = []
  · rw [if_pos he]
  · rw [if_neg he, if_pos h]

theorem processLine_eventline (l : List Char)
    (h : leadsWith (("event:").toList) (lowerStr (jsTrim l)) = true) :
    processLine l = [] := by
  simp only [processLine]
  by_cases he : jsTrim l = []
  · rw [if_pos he]
  · rw [if_neg he]
    by_cases hc : (jsTrim l).headD ' ' = ':'
    · rw [if_pos hc]
    · rw [if_neg hc, if_pos h]

theorem processLine_dataline (l : List Char)
    (hd : leadsWith (("data:").toList) (lowerStr (jsTrim l)) = true) :
    processLine l =
      (if jsTrim ((jsTrim l).drop 5) = [] then []
       else
         match parseJson (jsTrim ((jsTrim l).drop 5)) with
         | some j => emitTextsFromObj j
         | none => []) := by
  obtain ⟨c, rest, ht, hc⟩ := leads_head 'd' _ _ hd
  have hne : ¬ jsTrim l = [] := by rw [ht]; simp
  have hcol : ¬ (jsTrim l).headD ' ' = ':' := by
    rw [ht]
    simp only [List.headD_cons]
    intro hcc
    rw [hcc] at hc
    exact absurd hc (by decide)
  have hev : ¬ leadsWith (("event:").toList) (lowerStr (jsTrim l)) = true := by
    intro hevt
    obtain ⟨c2, r2, ht2, hc2⟩ := leads_head 'e' _ _ hevt
    rw [ht] at ht2
    have hcc : c = c2 := by injection ht2
    rw [← hcc] at hc2
    rw [hc2] at hc
    exact absurd hc (by decide)
  simp only [processLine]
  rw [if_neg hne, if_neg hcol, if_neg hev, if_pos hd]

/-- Claim C5: the Payload Extractor processes a frame's lines in order —
`processFrame` of newline-joined lines is the concatenation of each line's
`processLine` output — skipping lines that trim to nothing, comment lines
starting with `:`, and case-insensitive `event:` lines; a case-insensitive
`data:` line is stripped of its five-character prefix, trimmed, and parsed,
a successful parse yielding that object's fragments and a failed parse
(malformed JSON) yielding nothing, with no error raised (the embedding is
total); hence a frame of N well-formed one-fragment `data:` lines yields
exactly its N fragments in line order, and a malformed line among valid
ones drops only its own contribution. -/
theorem c5_payload_extractor :
    (∀ ls : List (List Char), ls ≠ [] → (∀ l ∈ ls, '\n' ∉ l) →
      processFrame (joinNl ls) = ls.flatMap processLine) ∧
    (∀ ls : List (List Char), ∀ frs : List (List (List Char)), ls ≠ [] →
      (∀ l ∈ ls, '\n' ∉ l) →
      List.Forall₂ (fun l fr => processLine l = fr) ls frs →
      processFrame (joinNl ls) = frs.flatten) ∧
    (∀ l : List Char, jsTrim l = [] → processLine l = []) ∧
    (∀ l : List Char, (jsTrim l).headD ' ' = ':' → processLine l = []) ∧
    (∀ l : List Char, leadsWith (("event:").toList) (lowerStr (jsTrim l)) = true →
      processLine l = []) ∧
    (∀ (l : List Char) (j : Json),
      leadsWith (("data:").toList) (lowerStr (jsTrim l)) = true →
      parseJson (jsTrim ((jsTrim l).drop 5)) = some j →
      processLine l = emitTextsFromObj j) ∧
    (∀ l : List Char,
      leadsWith (("data:").toList) (lowerStr (jsTrim l)) = true →
      parseJson (jsTrim ((jsTrim l).drop 5)) = none →
      processLine l = []) := by
  have horder : ∀ ls : List (List Char), ls ≠ [] → (∀ l ∈ ls, '\n' ∉ l) →
      processFrame (joinNl ls) = ls.flatMap processLine := by
    intro ls hne hnn
    rw [processFrame_eq, splitOnNl_joinNl ls hne hnn]
  refine ⟨horder, ?_, processLine_empty, processLine_comment, processLine_eventline,
    ?_, ?_⟩
  · intro ls frs hne hnn hfa
    rw [horder ls hne hnn]
    clear hne hnn
    induction hfa with
    | nil => rfl
    | cons hpl _ ih =>
      simp only [List.flatMap_cons, List.flatten_cons, hpl, ih]
  · intro l j hd hp
    rw [processLine_dataline l hd]
    have hne2 : ¬ jsTrim ((jsTrim l).drop 5) = [] := by
      intro hz
      rw [hz, parseJson_nil] at hp
      exact Option.noConfusion hp
    rw [if_neg hne2, hp]
  · intro l hd hp
    rw [processLine_dataline l hd]
    by_cases hz : jsTrim ((jsTrim l).drop 5) = []
    · rw [if_pos hz]
    · rw [if_neg hz, hp]

/-- Witness for C5 at a concrete frame: one well-formed `data:` JSON line
holding the fragment "Hi", one malformed `data:` line, one comment line
and one `event:` line — the frame yields exactly the one fragment, in
order, with the malformed line contributing nothing. -/
theorem c5_witness :
    ([("data: \x7b\"candidates\":[\x7b\"content\":\x7b\"parts\":[\x7b\"text\":\"Hi\"\x7d]\x7d\x7d]\x7d").toList,
        ("data: \x7boops").toList, (": keepalive").toList, ("event: message").toList] ≠
      ([] : List (List Char))) ∧
    (∀ l ∈ [("data: \x7b\"candidates\":[\x7b\"content\":\x7b\"parts\":[\x7b\"text\":\"Hi\"\x7d]\x7d\x7d]\x7d").toList,
        ("data: \x7boops").toList, (": keepalive").toList, ("event: message").toList],
      '\n' ∉ l) ∧
    processFrame (joinNl
        [("data: \x7b\"candidates\":[\x7b\"content\":\x7b\"parts\":[\x7b\"text\":\"Hi\"\x7d]\x7d\x7d]\x7d").toList,
         ("data: \x7boops").toList, (": keepalive").toList, ("event: message").toList]) =
      ([("data: \x7b\"candidates\":[\x7b\"content\":\x7b\"parts\":[\x7b\"text\":\"Hi\"\x7d]\x7d\x7d]\x7d").toList,
        ("data: \x7boops").toList, (": keepalive").toList, ("event: message").toList]).flatMap
        processLine ∧
    processFrame (joinNl
        [("data: \x7b\"candidates\":[\x7b\"content\":\x7b\"parts\":[\x7b\"text\":\"Hi\"\x7d]\x7d\x7d]\x7d").toList,
         ("data: \x7boops").toList, (": keepalive").toList, ("event: message").toList]) =
      [("Hi").toList] := by
  refine ⟨by decide, by decide, c5_payload_extractor.1 _ (by decide) (by decide), by decide⟩

/-- Claim C7, counterexample: in the combined handler's stream route
(src/api/gemini.js lines 176-310) the SSE headers are sent BEFORE the
upstream call, so a 503 upstream rejection before any streaming yields an
SSE exchange with an in-band error frame — the headers count is 1 and no
single JSON response carrying the upstream status is ever sent. -/
theorem c7_counterexample :
    (geminiStreamRoute ⟨true, true, 5⟩
        (.success ⟨false, 503, true, Shape.reader, [], EndKind.normal,
          ("upstream says no").toList⟩) []).countP Act.isSse = 1 ∧
    (geminiStreamRoute ⟨true, true, 5⟩
        (.success ⟨false, 503, true, Shape.reader, [], EndKind.normal,
          ("upstream says no").toList⟩) []).countP Act.isResp = 0 := by
  exact ⟨rfl, rfl⟩

/-- Claim C7, amended: in the dedicated stream handler
(src/api/gemini/stream.js lines 32-37) a non-2xx (or body-less) upstream
response before streaming begins is answered by a single non-streaming
JSON error response carrying the upstream's status code, with no SSE
headers ever sent; the combined handler's stream route instead has
already sent SSE headers and armed the heartbeat, and reports the same
rejection as an in-band `event: error` frame before closing, never as a
status-propagating JSON response. -/
theorem c7_upstream_rejection (r : StreamReq) (u : Upstream) (sched : List Nat)
    (hk : r.hasKey = true) (hp : r.promptValid = true) (hl : r.promptLen ≤ maxChars)
    (hbad : u.ok = false ∨ u.hasBody = false) :
    streamJsHandler r (.success u) sched =
      [Act.callUpstream, Act.jsonResp u.status (errBody u.detail)] ∧
    (streamJsHandler r (.success u) sched).countP Act.isSse = 0 ∧
    geminiStreamRoute r (.success u) sched =
      [Act.sseHeaders, Act.startHb, Act.callUpstream, Act.writeErr u.detail,
        Act.endStream] ∧
    (geminiStreamRoute r (.success u) sched).countP Act.isResp = 0 := by
  have hnl : ¬ maxChars < r.promptLen := Nat.not_lt.mpr hl
  have h1 : streamJsHandler r (.success u) sched =
      [Act.callUpstream, Act.jsonResp u.status (errBody u.detail)] := by
    rcases hbad with hb | hb <;> simp [streamJsHandler, hk, hp, hnl, hb]
  have h2 : geminiStreamRoute r (.success u) sched =
      [Act.sseHeaders, Act.startHb, Act.callUpstream, Act.writeErr u.detail,
        Act.endStream] := by
    rcases hbad with hb | hb <;>
      simp [geminiStreamRoute, streamGenerateContentRun, hk, hp, hnl, hb, gcErrMsg]
  refine ⟨h1, ?_, h2, ?_⟩
  · rw [h1]
    rfl
  · rw [h2]
    rfl

/-- Witness for C7 at a concrete input: a 404 upstream rejection of the
dedicated handler becomes a single 404 JSON response with no SSE headers. -/
theorem c7_witness :
    ((⟨true, true, 5⟩ : StreamReq).hasKey = true ∧
      (⟨true, true, 5⟩ : StreamReq).promptLen ≤ maxChars) ∧
    streamJsHandler ⟨true, true, 5⟩
        (.success ⟨false, 404, true, Shape.reader, [], EndKind.normal,
          ("not found").toList⟩) [] =
      [Act.callUpstream, Act.jsonResp 404 (errBody (("not found").toList))] ∧
    (streamJsHandler ⟨true, true, 5⟩
        (.success ⟨false, 404, true, Shape.reader, [], EndKind.normal,
          ("not found").toList⟩) []).countP Act.isSse = 0 := by
  have h := c7_upstream_rejection ⟨true, true, 5⟩
    ⟨false, 404, true, Shape.reader, [], EndKind.normal, ("not found").toList⟩ []
    rfl rfl (by decide) (Or.inl rfl)
  exact ⟨⟨rfl, by decide⟩, h.1, h.2.1⟩

/-- Claim C8, counterexample: two routes violate the claim for a prompt of
200,001 characters.  On the combined handler's stream route no upstream
call is issued, but the rejection is NOT a 400-class response — the SSE
headers are already sent (count 1) and the "Input too long" error is
delivered as an in-band `event: error` frame on the streaming exchange.
And the dedicated `POST /api/gemini/silent` handler
(src/api/gemini/silent.js) has no length guard at all: the same prompt
passes its checks, the upstream call IS issued (count 1, not 0), and the
handler answers an empty 204, not a 400-class error. -/
theorem c8_counterexample :
    (geminiStreamRoute ⟨true, true, 200001⟩ (.throwErr []) []).countP Act.isCall = 0 ∧
    (geminiStreamRoute ⟨true, true, 200001⟩ (.throwErr []) []).countP
      (Act.isJsonRespWith 400) = 0 ∧
    (geminiStreamRoute ⟨true, true, 200001⟩ (.throwErr []) []).countP Act.isSse = 1 ∧
    geminiStreamRoute ⟨true, true, 200001⟩ (.throwErr []) [] =
      [Act.sseHeaders, Act.startHb, Act.writeErr tooLongMsg, Act.endStream] ∧
    silentJsHandler ⟨true, true, 200001⟩
        (.success ⟨true, 200, some (Json.jobj []), []⟩) =
      [Act.callUpstream, Act.emptyResp 204] ∧
    (silentJsHandler ⟨true, true, 200001⟩
        (.success ⟨true, 200, some (Json.jobj []), []⟩)).countP Act.isCall = 1 := by
  refine ⟨by decide, by decide, by decide, rfl, rfl, by decide⟩

/-- Claim C8, amended: a prompt longer than `maxChars = 50,000 × 4 =
200,000` characters is rejected before any upstream call with a 400-class
response by the dedicated `/api/gemini` and `/api/gemini/stream` handlers
and by the combined handler's root and silent routes.  The combined
handler's stream and stream/silent routes also issue no upstream call,
but — the length guard throwing inside `streamGenerateContent` — answer
with an in-band `event: error` frame after the already-committed SSE
headers, respectively an empty 500, rather than a 400-class response.
The dedicated `/api/gemini/silent` handler, however, has no length guard
at all: it issues the upstream call with the over-long prompt and answers
an empty 204 on every fetched response. -/
theorem c8_input_length_guard (r : StreamReq) (fs : FetchResult Upstream)
    (fj : FetchResult UpstreamJson) (sched : List Nat)
    (hk : r.hasKey = true) (hp : r.promptValid = true)
    (hlen : maxChars < r.promptLen) :
    streamJsHandler r fs sched = [Act.jsonResp 400 (errBody tooLongMsg)] ∧
    indexJsHandler r fj = [Act.jsonResp 400 (errBody tooLongMsg)] ∧
    geminiRootRoute r fj = [Act.jsonResp 400 (errBody tooLongMsg)] ∧
    geminiSilentRoute r fj = [Act.emptyResp 400] ∧
    geminiStreamRoute r fs sched =
      [Act.sseHeaders, Act.startHb, Act.writeErr tooLongMsg, Act.endStream] ∧
    geminiStreamSilentRoute r fs = [Act.emptyResp 500] ∧
    (streamJsHandler r fs sched).countP Act.isCall = 0 ∧
    (indexJsHandler r fj).countP Act.isCall = 0 ∧
    (geminiRootRoute r fj).countP Act.isCall = 0 ∧
    (geminiSilentRoute r fj).countP Act.isCall = 0 ∧
    (geminiStreamRoute r fs sched).countP Act.isCall = 0 ∧
    (geminiStreamSilentRoute r fs).countP Act.isCall = 0 ∧
    (silentJsHandler r fj).countP Act.isCall = 1 ∧
    (∀ u : UpstreamJson, silentJsHandler r (.success u) =
      [Act.callUpstream, Act.emptyResp 204]) := by
  have h1 : streamJsHandler r fs sched = [Act.jsonResp 400 (errBody tooLongMsg)] := by
    simp [streamJsHandler, hk, hp, hlen]
  have h2 : indexJsHandler r fj = [Act.jsonResp 400 (errBody tooLongMsg)] := by
    simp [indexJsHandler, hk, hp, hlen]
  have h3 : geminiRootRoute r fj = [Act.jsonResp 400 (errBody tooLongMsg)] := by
    simp [geminiRootRoute, generateContentRun, hk, hp, hlen]
  have h4 : geminiSilentRoute r fj = [Act.emptyResp 400] := by
    simp [geminiSilentRoute, generateContentRun, hk, hp, hlen]
  have h5 : geminiStreamRoute r fs sched =
      [Act.sseHeaders, Act.startHb, Act.writeErr tooLongMsg, Act.endStream] := by
    simp [geminiStreamRoute, streamGenerateContentRun, hk, hp, hlen, gcErrMsg]
  have h6 : geminiStreamSilentRoute r fs = [Act.emptyResp 500] := by
    simp [geminiStreamSilentRoute, streamGenerateContentRun, hk, hp, hlen]
  have h7 : (silentJsHandler r fj).countP Act.isCall = 1 := by
    cases fj with
    | success u =>
      have hs : silentJsHandler r (.success u) = [Act.callUpstream, Act.emptyResp 204] := by
        simp [silentJsHandler, hk, hp]
      rw [hs]; rfl
    | throwErr m =>
      have hs : silentJsHandler r (.throwErr m) = [Act.callUpstream, Act.emptyResp 500] := by
        simp [silentJsHandler, hk, hp]
      rw [hs]; rfl
  have h8 : ∀ u : UpstreamJson, silentJsHandler r (.success u) =
      [Act.callUpstream, Act.emptyResp 204] := fun u => by
    simp [silentJsHandler, hk, hp]
  exact ⟨h1, h2, h3, h4, h5, h6,
    by rw [h1]; rfl, by rw [h2]; rfl, by rw [h3]; rfl, by rw [h4]; rfl,
    by rw [h5]; rfl, by rw [h6]; rfl, h7, h8⟩

/-- Witness for C8 at a concrete input: a 200,001-character prompt on the
dedicated stream handler yields the 400 response and no upstream call,
while the dedicated silent handler issues the upstream call and answers
204. -/
theorem c8_witness :
    ((⟨true, true, 200001⟩ : StreamReq).hasKey = true ∧
      maxChars < (⟨true, true, 200001⟩ : StreamReq).promptLen) ∧
    streamJsHandler ⟨true, true, 200001⟩ (.throwErr []) [] =
      [Act.jsonResp 400 (errBody tooLongMsg)] ∧
    (streamJsHandler ⟨true, true, 200001⟩ (.throwErr []) []).countP Act.isCall = 0 ∧
    (silentJsHandler ⟨true, true, 200001⟩ (.throwErr [])).countP Act.isCall = 1 ∧
    silentJsHandler ⟨true, true, 200001⟩
        (.success ⟨false, 500, none, []⟩) =
      [Act.callUpstream, Act.emptyResp 204] := by
  have h := c8_input_length_guard ⟨true, true, 200001⟩ (.throwErr []) (.throwErr []) []
    rfl rfl (by decide)
  obtain ⟨h1, h2, h3, h4, h5, h6, g1, g2, g3, g4, g5, g6, s1, s2⟩ := h
  exact ⟨⟨rfl, by decide⟩, h1, g1, s1, s2 ⟨false, 500, none, []⟩⟩

theorem geminiStreamRoute_good (r : StreamReq) (u : Upstream) (sched : List Nat)
    (hk : r.hasKey = true) (hp : r.promptValid = true) (hl : r.promptLen ≤ maxChars)
    (hok : u.ok = true) (hb : u.hasBody = true) (hsh : u.shape ≠ Shape.unknown) :
    geminiStreamRoute r (.success u) sched =
      [Act.sseHeaders, Act.startHb, Act.callUpstream] ++ streamCore true u sched := by
  have hnl : ¬ maxChars < r.promptLen := Nat.not_lt.mpr hl
  obtain ⟨ok, status, hasBody, shape, chunks, endKind, detail⟩ := u
  simp only [] at hok hb hsh
  subst hok
  subst hb
  cases shape <;>
    simp [geminiStreamRoute, streamGenerateContentRun, hk, hp, hnl] <;>
    exact absurd rfl hsh

theorem streamJsHandler_good (r : StreamReq) (u : Upstream) (sched : List Nat)
    (hk : r.hasKey = true) (hp : r.promptValid = true) (hl : r.promptLen ≤ maxChars)
    (hok : u.ok = true) (hb : u.hasBody = true) (hsh : u.shape ≠ Shape.unknown) :
    streamJsHandler r (.success u) sched =
      [Act.callUpstream, Act.sseHeaders, Act.startHb] ++ streamCore false u sched := by
  have hnl : ¬ maxChars < r.promptLen := Nat.not_lt.mpr hl
  obtain ⟨ok, status, hasBody, shape, chunks, endKind, detail⟩ := u
  simp only [] at hok hb hsh
  subst hok
  subst hb
  cases shape <;>
    simp [streamJsHandler, hk, hp, hnl] <;>
    exact absurd rfl hsh

/-- Claim C6, counterexample: the dedicated stream handler
(src/api/gemini/stream.js lines 111-114, 122, 132-135) reacts to a
mid-stream upstream failure — after the SSE headers were sent — by
clearing the heartbeat and closing the stream WITHOUT emitting any
`event: error` frame. -/
theorem c6_counterexample :
    (streamJsHandler ⟨true, true, 5⟩
        (.success ⟨true, 200, true, Shape.reader, [], EndKind.errored (("boom").toList),
          []⟩) []).countP Act.isSse = 1 ∧
    (streamJsHandler ⟨true, true, 5⟩
        (.success ⟨true, 200, true, Shape.reader, [], EndKind.errored (("boom").toList),
          []⟩) []).countP Act.isErrFrame = 0 ∧
    (streamJsHandler ⟨true, true, 5⟩
        (.success ⟨true, 200, true, Shape.reader, [], EndKind.errored (("boom").toList),
          []⟩) []).countP Act.isClose = 1 := by
  refine ⟨by decide, by decide, by decide⟩

/-- Claim C6, amended: on a mid-stream upstream failure after the SSE
headers have been sent, the combined handler's stream route
(src/api/gemini.js lines 263-267, 278-282, 292-296) emits exactly one
in-band `event: error` frame carrying the error message and then closes
the stream; the dedicated stream handler emits no error frame at all —
it cancels the heartbeat and closes the stream silently. -/
theorem c6_mid_stream_error (r : StreamReq) (u : Upstream) (sched : List Nat)
    (msg : List Char)
    (hk : r.hasKey = true) (hp : r.promptValid = true) (hl : r.promptLen ≤ maxChars)
    (hok : u.ok = true) (hb : u.hasBody = true) (hsh : u.shape ≠ Shape.unknown)
    (hek : u.endKind = .errored msg) :
    (∃ pre, geminiStreamRoute r (.success u) sched =
        pre ++ [Act.clearHb, Act.writeErr msg, Act.endStream]) ∧
    (geminiStreamRoute r (.success u) sched).countP Act.isErrFrame = 1 ∧
    (streamJsHandler r (.success u) sched).countP Act.isErrFrame = 0 ∧
    (∃ pre, streamJsHandler r (.success u) sched = pre ++ [Act.clearHb, Act.endStream]) := by
  have hgem := geminiStreamRoute_good r u sched hk hp hl hok hb hsh
  have hsj := streamJsHandler_good r u sched hk hp hl hok hb hsh
  have hcoreT := streamCore_errored_shape true u sched msg hek
  have hcoreF := streamCore_errored_shape false u sched msg hek
  simp only [if_pos, if_neg] at hcoreT hcoreF
  have hpre : ∀ a ∈ (driveChunks [] sched u.chunks).1 ++
      pingActs (sched.getD u.chunks.length 0),
      a = Act.writePing ∨ ∃ t, a = Act.writeData t := by
    intro a ha
    rcases List.mem_append.mp ha with ha | ha
    · exact driveChunks_write_acts u.chunks [] sched a ha
    · exact Or.inl (pingActs_write_acts _ a ha)
  have hzT := countP_writes_zero _ hpre Act.isErrFrame ⟨rfl, fun _ => rfl⟩
  refine ⟨?_, ?_, ?_, ?_⟩
  · refine ⟨[Act.sseHeaders, Act.startHb, Act.callUpstream] ++
      ((driveChunks [] sched u.chunks).1 ++ pingActs (sched.getD u.chunks.length 0)), ?_⟩
    rw [hgem, hcoreT]
    simp [List.append_assoc]
  · rw [hgem, hcoreT, List.countP_append, List.countP_append, hzT]
    rfl
  · rw [hsj, hcoreF, List.countP_append, List.countP_append, hzT]
    rfl
  · refine ⟨[Act.callUpstream, Act.sseHeaders, Act.startHb] ++
      ((driveChunks [] sched u.chunks).1 ++ pingActs (sched.getD u.chunks.length 0)), ?_⟩
    rw [hsj, hcoreF]
    simp [List.append_assoc]

/-- Witness for C6 at a concrete input: a mid-stream "boom" failure on the
combined handler after one delivered chunk is reported in-band and then
the stream is closed; the dedicated handler never writes an error frame. -/
theorem c6_witness :
    ((⟨true, true, 4⟩ : StreamReq).hasKey = true ∧
      (⟨true, true, 4⟩ : StreamReq).promptLen ≤ maxChars ∧
      Shape.reader ≠ Shape.unknown) ∧
    (∃ pre, geminiStreamRoute ⟨true, true, 4⟩
        (.success ⟨true, 200, true, Shape.reader, [("data: 1\n\n").toList],
          EndKind.errored (("boom").toList), []⟩) [] =
        pre ++ [Act.clearHb, Act.writeErr (("boom").toList), Act.endStream]) ∧
    (streamJsHandler ⟨true, true, 4⟩
        (.success ⟨true, 200, true, Shape.reader, [("data: 1\n\n").toList],
          EndKind.errored (("boom").toList), []⟩) []).countP Act.isErrFrame = 0 := by
  have h := c6_mid_stream_error ⟨true, true, 4⟩
    ⟨true, 200, true, Shape.reader, [("data: 1\n\n").toList],
      EndKind.errored (("boom").toList), []⟩ [] (("boom").toList)
    rfl rfl (by decide) rfl rfl (by decide) rfl
  exact ⟨⟨rfl, by decide, by decide⟩, h.1, h.2.2.1⟩

/-- Claim C1, counterexample: two terminal paths leak the heartbeat timer.
On the dedicated handler's unknown-stream-shape path
(src/api/gemini/stream.js lines 137-138) the 502 response is sent with the
interval armed (started once, cleared zero times); on the combined
handler's stream route a setup exception — here a thrown fetch error — is
caught at src/api/gemini.js lines 301-308 after the heartbeat was armed at
line 189, and the catch writes the error frame and ends without any
`clearInterval`. -/
theorem c1_counterexample :
    (streamJsHandler ⟨true, true, 5⟩
        (.success ⟨true, 200, true, Shape.unknown, [], EndKind.normal, []⟩)
        []).countP Act.isStartHb = 1 ∧
    (streamJsHandler ⟨true, true, 5⟩
        (.success ⟨true, 200, true, Shape.unknown, [], EndKind.normal, []⟩)
        []).countP Act.isClearHb = 0 ∧
    (geminiStreamRoute ⟨true, true, 5⟩ (.throwErr (("ECONNRESET").toList))
        []).countP Act.isStartHb = 1 ∧
    (geminiStreamRoute ⟨true, true, 5⟩ (.throwErr (("ECONNRESET").toList))
        []).countP Act.isClearHb = 0 := by
  refine ⟨by decide, by decide, by decide, by decide⟩

/-- Claim C1, amended: on the recognized-shape streaming paths (pull
reader, push emitter, async iterator) of both handlers, every terminal
path — normal upstream end or upstream error — cancels the heartbeat
exactly once, closes the outbound stream exactly once, and performs no
write to the outbound sink after the terminal event, for every heartbeat
schedule; but on the unknown-stream-shape path and on the setup-exception
path the exchange is closed exactly once without the armed heartbeat ever
being canceled (its later ping-write attempts are swallowed by the
source's try/catch, outside this model). -/
theorem c1_termination (r : StreamReq) (u : Upstream) (sched : List Nat)
    (emsg : List Char)
    (hk : r.hasKey = true) (hp : r.promptValid = true) (hl : r.promptLen ≤ maxChars) :
    (u.ok = true → u.hasBody = true → u.shape ≠ Shape.unknown →
      (streamJsHandler r (.success u) sched).countP Act.isClearHb = 1 ∧
      (streamJsHandler r (.success u) sched).countP Act.isClose = 1 ∧
      NoWriteAfterTerminal (streamJsHandler r (.success u) sched) ∧
      (geminiStreamRoute r (.success u) sched).countP Act.isClearHb = 1 ∧
      (geminiStreamRoute r (.success u) sched).countP Act.isClose = 1 ∧
      NoWriteAfterTerminal (geminiStreamRoute r (.success u) sched)) ∧
    (u.ok = true → u.hasBody = true → u.shape = Shape.unknown →
      streamJsHandler r (.success u) sched =
        [Act.callUpstream, Act.sseHeaders, Act.startHb,
          Act.jsonResp 502 (errBody unknownShapeMsg)] ∧
      (streamJsHandler r (.success u) sched).countP Act.isClose = 1 ∧
      (streamJsHandler r (.success u) sched).countP Act.isClearHb = 0 ∧
      geminiStreamRoute r (.success u) sched =
        [Act.sseHeaders, Act.startHb, Act.callUpstream,
          Act.writeErr unknownShapeMsg, Act.endStream] ∧
      (geminiStreamRoute r (.success u) sched).countP Act.isClearHb = 0) ∧
    (streamJsHandler r (.throwErr emsg) sched =
        [Act.callUpstream, Act.jsonResp 500 (errBody emsg)] ∧
      geminiStreamRoute r (.throwErr emsg) sched =
        [Act.sseHeaders, Act.startHb, Act.callUpstream, Act.writeErr emsg,
          Act.endStream] ∧
      (geminiStreamRoute r (.throwErr emsg) sched).countP Act.isStartHb = 1 ∧
      (geminiStreamRoute r (.throwErr emsg) sched).countP Act.isClearHb = 0) := by
  have hnl : ¬ maxChars < r.promptLen := Nat.not_lt.mpr hl
  refine ⟨?_, ?_, ?_⟩
  · intro hok hb hsh
    have hgem := geminiStreamRoute_good r u sched hk hp hl hok hb hsh
    have hsj := streamJsHandler_good r u sched hk hp hl hok hb hsh
    obtain ⟨hclT, hcloT, hnwT⟩ := streamCore_guarantees true u sched
    obtain ⟨hclF, hcloF, hnwF⟩ := streamCore_guarantees false u sched
    refine ⟨?_, ?_, ?_, ?_, ?_, ?_⟩
    · rw [hsj, List.countP_append, hclF]
      rfl
    · rw [hsj, List.countP_append, hcloF]
      rfl
    · rw [hsj]
      apply nwat_extend _ hnwF
      intro a ha
      simp only [List.mem_cons, List.not_mem_nil, or_false] at ha
      rcases ha with ha | ha | ha <;> rw [ha] <;> rfl
    · rw [hgem, List.countP_append, hclT]
      rfl
    · rw [hgem, List.countP_append, hcloT]
      rfl
    · rw [hgem]
      apply nwat_extend _ hnwT
      intro a ha
      simp only [List.mem_cons, List.not_mem_nil, or_false] at ha
      rcases ha with ha | ha | ha <;> rw [ha] <;> rfl
  · intro hok hb hsh
    obtain ⟨ok, status, hasBody, shape, chunks, endKind, detail⟩ := u
    simp only [] at hok hb hsh
    subst hok
    subst hb
    subst hsh
    have h1 : streamJsHandler r
        (.success ⟨true, status, true, Shape.unknown, chunks, endKind, detail⟩) sched =
        [Act.callUpstream, Act.sseHeaders, Act.startHb,
          Act.jsonResp 502 (errBody unknownShapeMsg)] := by
      simp [streamJsHandler, hk, hp, hnl]
    have h2 : geminiStreamRoute r
        (.success ⟨true, status, true, Shape.unknown, chunks, endKind, detail⟩) sched =
        [Act.sseHeaders, Act.startHb, Act.callUpstream,
          Act.writeErr unknownShapeMsg, Act.endStream] := by
      simp [geminiStreamRoute, streamGenerateContentRun, hk, hp, hnl]
    exact ⟨h1, by rw [h1]; rfl, by rw [h1]; rfl, h2, by rw [h2]; rfl⟩
  · have h1 : streamJsHandler r (.throwErr emsg) sched =
        [Act.callUpstream, Act.jsonResp 500 (errBody emsg)] := by
      simp [streamJsHandler, hk, hp, hnl]
    have h2 : geminiStreamRoute r (.throwErr emsg) sched =
        [Act.sseHeaders, Act.startHb, Act.callUpstream, Act.writeErr emsg,
          Act.endStream] := by
      simp [geminiStreamRoute, streamGenerateContentRun, hk, hp, hnl, gcErrMsg]
    exact ⟨h1, h2, by rw [h2]; rfl, by rw [h2]; rfl⟩

/-- Witness for C1 at a concrete input: a reader-shaped upstream
delivering one frame and ending normally, with one heartbeat firing before
the chunk, cancels the heartbeat exactly once and closes exactly once on
both handlers. -/
theorem c1_witness :
    ((⟨true, true, 4⟩ : StreamReq).promptLen ≤ maxChars ∧
      (Shape.reader ≠ Shape.unknown)) ∧
    (streamJsHandler ⟨true, true, 4⟩
        (.success ⟨true, 200, true, Shape.reader, [("data: 1\n\n").toList],
          EndKind.normal, []⟩) [1]).countP Act.isClearHb = 1 ∧
    (streamJsHandler ⟨true, true, 4⟩
        (.success ⟨true, 200, true, Shape.reader, [("data: 1\n\n").toList],
          EndKind.normal, []⟩) [1]).countP Act.isClose = 1 ∧
    (geminiStreamRoute ⟨true, true, 4⟩
        (.success ⟨true, 200, true, Shape.reader, [("data: 1\n\n").toList],
          EndKind.normal, []⟩) [1]).countP Act.isClearHb = 1 := by
  have h := c1_termination ⟨true, true, 4⟩
    ⟨true, 200, true, Shape.reader, [("data: 1\n\n").toList], EndKind.normal, []⟩
    [1] (("x").toList) rfl rfl (by decide)
  have ha := h.1 rfl rfl (by decide)
  exact ⟨⟨by decide, by decide⟩, ha.1, ha.2.1, ha.2.2.2.1⟩

/-- Claim C10, counterexample: a 2xx upstream body whose first part's
`text` is the NUMBER 5 — so the candidate lacks a string text — is not
answered with `{"text": ""}`: the `|| ''` fallback only replaces falsy
values, and the number is passed through, producing `{"text": 5}`
(src/api/gemini/index.js lines 39-41). -/
theorem c10_counterexample :
    (¬ ∃ s, textPath (Json.jobj [(("candidates").toList, Json.jarr [Json.jobj
        [(("content").toList, Json.jobj [(("parts").toList, Json.jarr [Json.jobj
          [(("text").toList, Json.jnum (("5").toList))]])])]])]) =
      some (Json.jstr s)) ∧
    indexJsHandler ⟨true, true, 5⟩
        (.success ⟨true, 200, some (Json.jobj [(("candidates").toList, Json.jarr [Json.jobj
          [(("content").toList, Json.jobj [(("parts").toList, Json.jarr [Json.jobj
            [(("text").toList, Json.jnum (("5").toList))]])])]])]), []⟩) =
      [Act.callUpstream, Act.jsonResp 200
        (Json.jobj [(("text").toList, Json.jnum (("5").toList))])] ∧
    Json.jnum (("5").toList) ≠ Json.jstr [] := by
  refine ⟨?_, rfl, by simp⟩
  rintro ⟨s, hs⟩
  have h0 : textPath (Json.jobj [(("candidates").toList, Json.jarr [Json.jobj
      [(("content").toList, Json.jobj [(("parts").toList, Json.jarr [Json.jobj
        [(("text").toList, Json.jnum (("5").toList))]])])]])]) =
      some (Json.jnum (("5").toList)) := rfl
  rw [h0] at hs
  exact Json.noConfusion (Option.some.inj hs)

/-- Claim C10, amended: for every 2xx upstream response to the
non-streaming completion endpoints whose optional-chain extraction
`data?.candidates?.[0]?.content?.parts?.[0]?.text` is undefined (missing
candidates, parts, or text) or falsy (null, false, 0, the empty string),
the handler returns HTTP 200 with body `{"text": ""}`; a truthy non-string
`text` value, however, is returned verbatim rather than replaced by the
empty string. -/
theorem c10_missing_text_fallback (data : Json) (r : StreamReq) (status : Nat)
    (d : List Char)
    (hk : r.hasKey = true) (hp : r.promptValid = true) (hl : r.promptLen ≤ maxChars)
    (h : textPath data = none ∨ ∃ v, textPath data = some v ∧ truthy v = false) :
    extractTextOrEmpty data = Json.jstr [] ∧
    indexJsHandler r (.success ⟨true, status, some data, d⟩) =
      [Act.callUpstream, Act.jsonResp 200 (Json.jobj [(("text").toList, Json.jstr [])])] ∧
    geminiRootRoute r (.success ⟨true, status, some data, d⟩) =
      [Act.callUpstream, Act.jsonResp 200 (Json.jobj [(("text").toList, Json.jstr [])])] := by
  have hnl : ¬ maxChars < r.promptLen := Nat.not_lt.mpr hl
  have hx : extractTextOrEmpty data = Json.jstr [] := by
    rcases h with h | ⟨v, hv, htr⟩
    · simp [extractTextOrEmpty, h]
    · simp [extractTextOrEmpty, hv, htr]
  refine ⟨hx, ?_, ?_⟩
  · simp [indexJsHandler, hk, hp, hnl, hx]
  · simp [geminiRootRoute, generateContentRun, hk, hp, hnl, hx]

/-- Witness for C10 at a concrete input: an upstream body `{}` (no
candidates at all) yields the 200 response with the empty-string text. -/
theorem c10_witness :
    (textPath (Json.jobj []) = none ∨
      ∃ v, textPath (Json.jobj []) = some v ∧ truthy v = false) ∧
    indexJsHandler ⟨true, true, 5⟩ (.success ⟨true, 200, some (Json.jobj []), []⟩) =
      [Act.callUpstream, Act.jsonResp 200
        (Json.jobj [(("text").toList, Json.jstr [])])] := by
  have h := c10_missing_text_fallback (Json.jobj []) ⟨true, true, 5⟩ 200 []
    rfl rfl (by decide) (Or.inl rfl)
  exact ⟨Or.inl rfl, h.2.1⟩
